import Mathlib

/-!
Verification of the trace work-item tracker (trace_core) against its
natural-language specification.  The Python sources are shallowly embedded:
strings are `String`/`List Char`, SQLite tables are Lean lists of records,
fallible operations return `Except`, and the ambient effects of `sync`
(filesystem, git detection, clock, randomness) are passed in explicitly as
an environment value.  Python's `str.isalnum` is modelled on its ASCII
fragment (`Char.isAlpha || Char.isDigit`); every string appearing in the
concrete witnesses below is ASCII, where the two agree.
-/

namespace Trace

/-- ASCII fragment of Python `str.isalnum` applied to one character:
letters of either case and digits count as alphanumeric. -/
def pyIsAlnumChar (c : Char) : Bool :=
  c.isAlpha || c.isDigit

/-- Python `s.isalnum()`: nonempty and every character alphanumeric
(ASCII fragment). -/
def pyStrIsAlnum (l : List Char) : Bool :=
  !l.isEmpty && l.all pyIsAlnumChar

/-- `BASE36_CHARS` from `trace_core/constants.py`. -/
def BASE36_CHARS : List Char :=
  "0123456789abcdefghijklmnopqrstuvwxyz".data

/-- Membership in the fixed base36 alphabet (digits and lowercase letters). -/
def isBase36Char (c : Char) : Bool :=
  BASE36_CHARS.contains c

/-- `HASH_LENGTH` from `trace_core/constants.py`. -/
def HASH_LENGTH : Nat := 6

/-- `MAX_ID_RETRIES` from `trace_core/constants.py`. -/
def MAX_ID_RETRIES : Nat := 10

/-- `validate_issue_belongs_to_project` from `trace_core/contamination.py`:
the issue id must be exactly the project name, a hyphen, and a 6-character
alphanumeric hash. -/
def validate_issue_belongs_to_project (issue_id project_name : String) : Bool :=
  if issue_id.data.isEmpty || project_name.data.isEmpty then false
  else if !(issue_id.data.contains '-') then false
  else if !((project_name.data ++ ['-']).isPrefixOf issue_id.data) then false
  else if (issue_id.data.drop (project_name.data.length + 1)).length ≠ 6 then false
  else pyStrIsAlnum (issue_id.data.drop (project_name.data.length + 1))

/-- `extract_project_name_from_issue_id` from `trace_core/contamination.py`:
split at the last hyphen (Python `rsplit("-", 1)`); the suffix must be a
6-character alphanumeric hash, the prefix is the project name. -/
def extract_project_name_from_issue_id (issue_id : String) : Option String :=
  if issue_id.data.isEmpty || !(issue_id.data.contains '-') then none
  else
    let hash_part := (issue_id.data.reverse.takeWhile (fun c => c ≠ '-')).reverse
    if hash_part.length ≠ 6 || !(hash_part.all pyIsAlnumChar) then none
    else some (String.mk ((issue_id.data.reverse.dropWhile (fun c => c ≠ '-')).tail).reverse)

/-- Worker for `replaceRuns`: the Bool records whether the previous
character was part of a run being replaced. -/
def replaceRunsGo (p : Char → Bool) : Bool → List Char → List Char
  | _, [] => []
  | inRun, c :: cs =>
    if p c then
      if inRun then replaceRunsGo p true cs
      else '-' :: replaceRunsGo p true cs
    else c :: replaceRunsGo p false cs

/-- Replace each maximal run of characters satisfying `p` by a single
hyphen; embeds the Python `re.sub(r"[...]+", "-", s)` calls used by
`sanitize_project_name`. -/
def replaceRuns (p : Char → Bool) (l : List Char) : List Char :=
  replaceRunsGo p false l

/-- Characters matched by the regex `[\s_]` (whitespace or underscore). -/
def isSpaceUnderscore (c : Char) : Bool :=
  c.isWhitespace || c == '_'

/-- Characters matched by the regex `[^a-z0-9-]` (not lowercase
alphanumeric and not a hyphen). -/
def isJunkChar (c : Char) : Bool :=
  !(('a' ≤ c && c ≤ 'z') || ('0' ≤ c && c ≤ '9') || c == '-')

/-- The hyphen predicate of the regex `-+` and of `strip("-")`. -/
def dashP (c : Char) : Bool := c == '-'

/-- Python `s.strip("-")` on a character list: remove leading and trailing
hyphens. -/
def stripDashes (l : List Char) : List Char :=
  ((l.dropWhile dashP).reverse.dropWhile dashP).reverse

/-- `sanitize_project_name` from `trace_core/utils.py`: lowercase, collapse
whitespace/underscore runs to hyphens, replace non-`[a-z0-9-]` runs by
hyphens, collapse hyphen runs, and strip outer hyphens. -/
def sanitize_project_name (name : String) : String :=
  let l1 := name.data.map Char.toLower
  let l2 := replaceRuns isSpaceUnderscore l1
  let l3 := replaceRuns isJunkChar l2
  let l4 := replaceRuns dashP l3
  String.mk (stripDashes l4)

/-- Digits of `_to_base36` from `trace_core/ids.py`, most significant
first (the Python code collects remainders and reverses them). -/
def toBase36Digits (num : Nat) : List Char :=
  if num = 0 then []
  else toBase36Digits (num / 36) ++ [BASE36_CHARS.getD (num % 36) '0']
decreasing_by exact Nat.div_lt_self (Nat.pos_of_ne_zero (by assumption)) (by norm_num)

/-- `_to_base36` from `trace_core/ids.py`. -/
def _to_base36 (num : Nat) : List Char :=
  if num = 0 then ['0'] else toBase36Digits num

/-- Python `s.zfill(w)` for the sign-free strings produced here: left-pad
with zeros up to width `w`. -/
def zfill (l : List Char) (w : Nat) : List Char :=
  List.replicate (w - l.length) '0' ++ l

/-- The 6-character hash suffix computed by one `generate_id` attempt:
`_to_base36(hash_int)[:HASH_LENGTH].zfill(HASH_LENGTH)`. -/
def hashSuffix (hash_int : Nat) : List Char :=
  zfill ((_to_base36 hash_int).take HASH_LENGTH) HASH_LENGTH

/-- A row of the `issues` table (`trace_core/db.py`). -/
structure Issue where
  id : String
  project_id : String
  title : String
  description : String
  status : String
  priority : Int
  created_at : String
  updated_at : String
  closed_at : Option String
deriving DecidableEq, Repr

/-- A row of the `dependencies` table (`trace_core/db.py`); its primary
key is the pair `(issue_id, depends_on_id)`. -/
structure Dep where
  issue_id : String
  depends_on_id : String
  type : String
  created_at : String
deriving DecidableEq, Repr

/-- A row of the `comments` table, without the surrogate autoincrement
key (the spec's data model carries content, source and created_at). -/
structure CommentRow where
  issue_id : String
  content : String
  source : String
  created_at : String
deriving DecidableEq, Repr

/-- A row of the `projects` table (`trace_core/db.py`). -/
structure Project where
  id : String
  name : String
  current_path : String
  uuid : Option String
deriving DecidableEq, Repr

/-- The relational cache: every table of the trace database.  Tables are
lists in scan order; primary keys are invariants of reachable states, not
of the representation. -/
structure DB where
  issues : List Issue
  projects : List Project
  deps : List Dep
  comments : List CommentRow
  metadata : List (String × String)
deriving DecidableEq, Repr

deriving instance DecidableEq for Except

/-- Split a character list at every occurrence of `sep` (Python
`s.split(sep)` for a one-character separator). -/
def splitOnChar (sep : Char) : List Char → List (List Char)
  | [] => [[]]
  | c :: cs =>
    if c = sep then [] :: splitOnChar sep cs
    else
      match splitOnChar sep cs with
      | h :: t => (c :: h) :: t
      | [] => [[c]]

/-- Python `s.split("/")[-1]`. -/
def splitSlashLast (s : String) : String :=
  String.mk ((splitOnChar '/' s.data).getLastD [])

/-- `pathlib.Path(s).name`, modelled for ordinary paths: the last
component after dropping empty and `.` components. -/
def pathName (s : String) : String :=
  let comps := (splitOnChar '/' s.data).filter (fun c => !c.isEmpty && c ≠ ['.'])
  String.mk (comps.getLastD [])

/-- `extract_project_name_from_id` from `trace_core/contamination.py`:
last URL or path component, sanitized. -/
def extract_project_name_from_id (project_id : String) : String :=
  let name :=
    if project_id.data.contains '/' && !(project_id.data.head? == some '/') then
      splitSlashLast project_id
    else pathName project_id
  sanitize_project_name name

/-- `find_project_by_name` from `trace_core/contamination.py`: first
`projects` row whose name matches. -/
def find_project_by_name (db : DB) (project_name : String) : Option Project :=
  db.projects.find? (fun p => p.name == project_name)

/-- The current project name used by `repair_contaminated_issues`: prefer
the registry row whose uuid equals the stored project reference, fall back
to extracting a name from the reference itself. -/
def currentProjectName (db : DB) (current_project_id : String) : String :=
  match db.projects.find? (fun p => p.uuid == some current_project_id) with
  | some p => p.name
  | none => extract_project_name_from_id current_project_id

/-- Statistics returned by `repair_contaminated_issues`; the Python set of
affected projects is modelled as a duplicate-free list. -/
structure RepairStats where
  examined : Nat
  contaminated : Nat
  repaired : Nat
  orphaned : Nat
  affected_projects : List String
deriving DecidableEq, Repr

/-- Add to the affected-projects set. -/
def addAffected (l : List String) (x : String) : List String :=
  if x ∈ l then l else l ++ [x]

/-- One iteration of the repair loop of `repair_contaminated_issues`
(`trace_core/contamination.py`): `db0` carries the tables the loop only
reads (`projects`), the state carries the stats and the mutating `issues`
table, and `rec` is one snapshot row `(id, project_id)`. -/
def repairStep (db0 : DB) (dry_run : Bool) (st : RepairStats × List Issue)
    (rec : String × String) : RepairStats × List Issue :=
  let stats := { st.1 with examined := st.1.examined + 1 }
  let issues := st.2
  let issue_id := rec.1
  let current_project_id := rec.2
  match extract_project_name_from_issue_id issue_id with
  | none => (stats, issues)
  | some expected_project_name =>
    if validate_issue_belongs_to_project issue_id (currentProjectName db0 current_project_id) then
      (stats, issues)
    else
      let stats := { stats with
        contaminated := stats.contaminated + 1,
        affected_projects := addAffected stats.affected_projects current_project_id }
      match find_project_by_name db0 expected_project_name with
      | some correct_project =>
        let issues :=
          if dry_run then issues
          else issues.map fun i =>
            if i.id == issue_id then { i with project_id := correct_project.current_path } else i
        ({ stats with
            repaired := stats.repaired + 1,
            affected_projects := addAffected stats.affected_projects correct_project.current_path },
          issues)
      | none => ({ stats with orphaned := stats.orphaned + 1 }, issues)

/-- `repair_contaminated_issues` from `trace_core/contamination.py`.  The
issue rows are snapshotted before the loop (the Python `fetchall`), and the
loop reassigns mismatched issues to the `current_path` of the project whose
name matches their id prefix. -/
def repair_contaminated_issues (db : DB) (project_id : Option String) (dry_run : Bool) :
    RepairStats × DB :=
  let selected : List Issue :=
    match project_id with
    | some pid => db.issues.filter (fun i => i.project_id == pid)
    | none => db.issues
  let snapshot := selected.map (fun i => (i.id, i.project_id))
  let res := snapshot.foldl (repairStep db dry_run) (⟨0, 0, 0, 0, []⟩, db.issues)
  (res.1, { db with issues := res.2 })

/-- `VALID_DEPENDENCY_TYPES` from `trace_core/constants.py`. -/
def VALID_DEPENDENCY_TYPES : List String := ["parent", "blocks", "related"]

/-- `add_dependency` from `trace_core/dependencies.py`: validate the type,
then `INSERT OR IGNORE` keyed on the `(issue_id, depends_on_id)` pair.
Every connection sets `PRAGMA foreign_keys = ON` and `OR IGNORE` does not
suppress foreign-key violations, so an endpoint missing from the issues
table raises `IntegrityError` and inserts nothing. -/
def add_dependency (now : String) (db : DB) (issue_id depends_on_id dep_type : String) :
    Except String DB :=
  if !(VALID_DEPENDENCY_TYPES.contains dep_type) then
    .error ("Invalid dependency type: " ++ dep_type)
  else if !(db.issues.any (fun i => i.id == issue_id) &&
      db.issues.any (fun i => i.id == depends_on_id)) then
    .error "FOREIGN KEY constraint failed"
  else if db.deps.any (fun e => e.issue_id == issue_id && e.depends_on_id == depends_on_id) then
    .ok db
  else
    .ok { db with deps := db.deps ++ [⟨issue_id, depends_on_id, dep_type, now⟩] }

/-- `get_dependencies` from `trace_core/dependencies.py`: all dependency
rows of one issue, in table order. -/
def get_dependencies (db : DB) (issue_id : String) : List Dep :=
  db.deps.filter (fun d => d.issue_id == issue_id)

/-- `is_blocked` from `trace_core/dependencies.py`: the SQL count joins
each outgoing `blocks` edge with the non-closed issues it points at, and
the issue is blocked iff the count is positive. -/
def is_blocked (db : DB) (issue_id : String) : Bool :=
  0 < ((db.deps.filter (fun d => d.issue_id == issue_id && d.type == "blocks")).map
    (fun d =>
      (db.issues.filter (fun i => i.id == d.depends_on_id && i.status != "closed")).length)).sum

/-- The upward walk of `detect_cycle` (`trace_core/reorganization.py`).
The Python `while current:` loop terminates because every iteration adds a
new node to the visited set; the fuel given below covers every possible
chain, since each visited node after the first is the target of a distinct
dependency row. -/
def detectCycleGo (db : DB) (issue_id : String) : String → List String → Nat → Bool
  | _, _, 0 => false
  | current, visited, fuel + 1 =>
    if current = "" then false
    else if current = issue_id then true
    else if current ∈ visited then false
    else
      match (get_dependencies db current).filter (fun d => d.type == "parent") with
      | [] => false
      | d :: _ => detectCycleGo db issue_id d.depends_on_id (current :: visited) fuel

/-- `detect_cycle` from `trace_core/reorganization.py`: walk up from the
proposed new parent looking for the issue being reparented. -/
def detect_cycle (db : DB) (issue_id new_parent_id : String) : Bool :=
  detectCycleGo db issue_id new_parent_id [] (db.deps.length + 1)

/-- The cycle error raised by `reparent_issue`. -/
def cycleMsg : String := "Cannot reparent: would create a cycle"

/-- `reparent_issue` from `trace_core/reorganization.py`: reject cycles
before mutating, then delete every `parent` edge of the issue and insert
the new one (if any). -/
def reparent_issue (now : String) (db : DB) (issue_id : String)
    (new_parent_id : Option String) : Except String DB :=
  match new_parent_id with
  | some np =>
    if detect_cycle db issue_id np then .error cycleMsg
    else
      let deps := db.deps.filter (fun d => !(d.issue_id == issue_id && d.type == "parent"))
      .ok { db with deps := deps ++ [⟨issue_id, np, "parent", now⟩] }
  | none =>
    let deps := db.deps.filter (fun d => !(d.issue_id == issue_id && d.type == "parent"))
    .ok { db with deps := deps }

/-- One line of the JSONL log file, already parsed: every mutable field of
an issue plus its dependency edges `(depends_on_id, type)` and comments
`(content, source, created_at)`; the project handle is never present. -/
structure ExportedIssue where
  id : String
  title : String
  description : String
  status : String
  priority : Int
  created_at : String
  updated_at : String
  closed_at : Option String
  dependencies : List (String × String)
  comments : List (String × String × String)
deriving DecidableEq, Repr

/-- Lexicographic order on character lists: models SQLite's ordering of
TEXT columns. -/
def leCharList : List Char → List Char → Bool
  | [], _ => true
  | _ :: _, [] => false
  | a :: as, b :: bs => if a = b then leCharList as bs else decide (a < b)

/-- Sort order of exported issues (`ORDER BY id`). -/
def leIssueId (a b : Issue) : Prop := leCharList a.id.data b.id.data = true

instance : DecidableRel leIssueId := fun _ _ =>
  inferInstanceAs (Decidable (_ = true))

/-- Sort order of exported dependency rows (`ORDER BY depends_on_id`). -/
def leDepTarget (a b : Dep) : Prop := leCharList a.depends_on_id.data b.depends_on_id.data = true

instance : DecidableRel leDepTarget := fun _ _ =>
  inferInstanceAs (Decidable (_ = true))

/-- Sort order of exported comments (`ORDER BY created_at ASC`). -/
def leCommentTime (a b : CommentRow) : Prop := leCharList a.created_at.data b.created_at.data = true

instance : DecidableRel leCommentTime := fun _ _ =>
  inferInstanceAs (Decidable (_ = true))

/-- The project name used by `export_to_jsonl`: prefer the registry row
whose uuid equals the project id, else extract a name from the id. -/
def exportProjectName (db : DB) (project_id : String) : String :=
  match db.projects.find? (fun p => p.uuid == some project_id) with
  | some p => p.name
  | none => extract_project_name_from_id project_id

/-- The JSONL line `export_to_jsonl` writes for one issue: its mutable
fields, its dependency rows sorted by target, and its comments sorted by
time. -/
def exportLine (db : DB) (i : Issue) : ExportedIssue :=
  { id := i.id, title := i.title, description := i.description, status := i.status,
    priority := i.priority, created_at := i.created_at, updated_at := i.updated_at,
    closed_at := i.closed_at,
    dependencies := ((db.deps.filter (fun d => d.issue_id == i.id)).insertionSort
      leDepTarget).map (fun d => (d.depends_on_id, d.type)),
    comments := ((db.comments.filter (fun c => c.issue_id == i.id)).insertionSort
      leCommentTime).map (fun c => (c.content, c.source, c.created_at)) }

/-- `export_to_jsonl` from `trace_core/sync.py`: the project's issues,
sorted by id and filtered through the contamination validator, each with
its dependency edges (sorted by target) and comments (sorted by time). -/
def export_to_jsonl (db : DB) (project_id : String) : List ExportedIssue :=
  let project_name := exportProjectName db project_id
  let sorted := (db.issues.filter (fun i => i.project_id == project_id)).insertionSort leIssueId
  let issues := sorted.filter (fun i => validate_issue_belongs_to_project i.id project_name)
  issues.map (exportLine db)

/-- The `created`/`updated`/`skipped`/`errors` counters returned by
`import_from_jsonl`. -/
structure ImportStats where
  created : Nat
  updated : Nat
  skipped : Nat
  errors : Nat
deriving DecidableEq, Repr

/-- The issue phase of `import_from_jsonl` for one line: skip lines whose
id fails validation against the caller-supplied handle's name, insert
unknown issues under the caller-supplied `project_id`, and overwrite the
mutable fields of known ones. -/
def importIssueLine (project_id project_name : String)
    (st : ImportStats × List Issue) (line : ExportedIssue) : ImportStats × List Issue :=
  let stats := st.1
  let issues := st.2
  if !(validate_issue_belongs_to_project line.id project_name) then
    ({ stats with skipped := stats.skipped + 1 }, issues)
  else
    match issues.find? (fun i => i.id == line.id) with
    | none =>
      ({ stats with created := stats.created + 1 },
        issues ++ [⟨line.id, project_id, line.title, line.description, line.status,
          line.priority, line.created_at, line.updated_at, line.closed_at⟩])
    | some _ =>
      ({ stats with updated := stats.updated + 1 },
        issues.map fun i =>
          if i.id == line.id then
            { i with
                title := line.title, description := line.description,
                status := line.status, priority := line.priority,
                updated_at := line.updated_at, closed_at := line.closed_at }
          else i)

/-- Sequential `INSERT OR IGNORE` of one line's dependency rows.  The
foreign-key pragma is on: inserting an edge whose endpoints are not both
present raises, the surrounding `except` swallows it, and the rest of the
line's inserts are abandoned. -/
def importDepInsert (now : String) (issues : List Issue) (line_id : String) :
    List Dep → List (String × String) → List Dep
  | deps, [] => deps
  | deps, (target, ty) :: rest =>
    if issues.any (fun i => i.id == line_id) && issues.any (fun i => i.id == target) then
      let deps :=
        if deps.any (fun e => e.issue_id == line_id && e.depends_on_id == target) then deps
        else deps ++ [⟨line_id, target, ty, now⟩]
      importDepInsert now issues line_id deps rest
    else deps

/-- The dependency phase of `import_from_jsonl` for one line: clear the
issue's dependency rows, then insert what the line specifies. -/
def importDepsLine (now : String) (issues : List Issue) (deps : List Dep)
    (line : ExportedIssue) : List Dep :=
  importDepInsert now issues line.id
    (deps.filter (fun d => !(d.issue_id == line.id))) line.dependencies

/-- The comment phase of `import_from_jsonl` for one line: clear the
issue's comments, then insert what the line specifies (all-or-nothing,
since a missing issue makes the first insert raise). -/
def importCommentsLine (issues : List Issue) (comments : List CommentRow)
    (line : ExportedIssue) : List CommentRow :=
  let cleared := comments.filter (fun c => !(c.issue_id == line.id))
  if issues.any (fun i => i.id == line.id) then
    cleared ++ line.comments.map (fun t => ⟨line.id, t.1, t.2.1, t.2.2⟩)
  else cleared

/-- `import_from_jsonl` from `trace_core/sync.py`: issue phase for every
line, then dependency phase for every line, then comment phase for every
line.  Lines are modelled already parsed (a malformed line only bumps the
error counter and is dropped before these phases). -/
def import_from_jsonl (now : String) (db : DB) (lines : List ExportedIssue)
    (project_id : String) : ImportStats × DB :=
  let project_name := extract_project_name_from_id project_id
  let res := lines.foldl (importIssueLine project_id project_name) (⟨0, 0, 0, 0⟩, db.issues)
  let issues := res.2
  let deps := lines.foldl (importDepsLine now issues) db.deps
  let comments := lines.foldl (importCommentsLine issues) db.comments
  (res.1, { db with issues := issues, deps := deps, comments := comments })

/-- `INSERT OR REPLACE` on the projects table, keyed on `id`; replacement
is modelled in place (the table is content-equal to SQLite's
delete-then-insert). -/
def insertOrReplaceProject (ps : List Project) (p : Project) : List Project :=
  if ps.any (fun q => q.id == p.id) then ps.map (fun q => if q.id == p.id then p else q)
  else ps ++ [p]

/-- One iteration of the auto-merge loop of `sync_project`: if a distinct
stored handle refers to the path being synced (literally, or through the
registry), rewrite its issues to the current handle, drop its registry row
and re-register the current handle (without a uuid column, so the replaced
row's uuid becomes NULL). -/
def autoMergeStep (project_id project_name project_path : String) (db : DB)
    (old_project_id : String) : DB :=
  if old_project_id == project_id then db
  else
    let is_same_project :=
      old_project_id == project_path ||
        (match db.projects.find? (fun p => p.id == old_project_id) with
         | some p => p.current_path == project_path
         | none => false)
    if is_same_project then
      let issues := db.issues.map fun i =>
        if i.project_id == old_project_id then { i with project_id := project_id } else i
      let projects := db.projects.filter (fun p => !(p.id == old_project_id))
      let projects := insertOrReplaceProject projects ⟨project_id, project_name, project_path, none⟩
      { db with issues := issues, projects := projects }
    else db

/-- Digit-by-digit decimal parser: the fragment of Python `float()` that
the stored integer timestamps exercise. -/
def parseDigits : Nat → List Char → Option Nat
  | acc, [] => some acc
  | acc, c :: cs => if c.isDigit then parseDigits (acc * 10 + (c.toNat - 48)) cs else none

/-- Parse a stored timestamp string (an optionally signed decimal). -/
def strToInt (s : String) : Option Int :=
  match s.data with
  | [] => none
  | '-' :: ds =>
    match ds with
    | [] => none
    | _ => (parseDigits 0 ds).map (fun n => -(n : Int))
  | ds => (parseDigits 0 ds).map (fun n => (n : Int))

/-- `get_last_sync_time` from `trace_core/sync.py`: the metadata value
under `last_sync:{project_id}`, parsed as a number (timestamps are modelled
as integers). -/
def get_last_sync_time (db : DB) (project_id : String) : Option Int :=
  match db.metadata.find? (fun kv => kv.1 == "last_sync:" ++ project_id) with
  | some kv => strToInt kv.2
  | none => none

/-- `INSERT OR REPLACE` on the metadata table, keyed on `key`. -/
def insertOrReplaceMeta (m : List (String × String)) (kv : String × String) :
    List (String × String) :=
  if m.any (fun e => e.1 == kv.1) then m.map (fun e => if e.1 == kv.1 then kv else e)
  else m ++ [kv]

/-- `set_last_sync_time` from `trace_core/sync.py`. -/
def set_last_sync_time (db : DB) (project_id : String) (timestamp : Int) : DB :=
  { db with metadata :=
      insertOrReplaceMeta db.metadata ("last_sync:" ++ project_id, toString timestamp) }

/-- The ambient effects read by `sync_project`: the git-context detection
result (handle and sanitized name), the `.trace` directory's presence, the
log file's presence and modification time, its parsed contents, and the
clock.  `traceUuid` and `freshUuid` stand for `get_project_uuid` and
`generate_project_uuid`, which `sync.py` imports from `trace_core.utils`
but whose bodies are not in the repository's files; modelled from the
spec: the per-project UUID is read from the private state directory if
present, else freshly generated and persisted. -/
structure SyncEnv where
  detected : Option (String × String)
  traceDirExists : Bool
  traceUuid : Option String
  freshUuid : String
  jsonlExists : Bool
  jsonlMtime : Int
  jsonlLines : List ExportedIssue
  now : String
deriving Repr

/-- `sync_project` from `trace_core/sync.py`: resolve the handle, register
the project (with uuid) when its private state directory exists, run the
auto-merge over every distinct stored handle, then import the log if it
exists and is newer than the recorded last sync, finally recording the
log's modification time. -/
def sync_project (env : SyncEnv) (project_path : String) (db : DB) : DB :=
  match env.detected with
  | none => db
  | some proj =>
    let project_id := proj.1
    let db1 :=
      if env.traceDirExists then
        let uuid := match env.traceUuid with | some u => u | none => env.freshUuid
        { db with projects :=
            insertOrReplaceProject db.projects ⟨project_id, proj.2, project_path, some uuid⟩ }
      else db
    let all_project_ids := (db1.issues.map (fun i => i.project_id)).eraseDups
    let db2 := all_project_ids.foldl (autoMergeStep project_id proj.2 project_path) db1
    if !env.jsonlExists then db2
    else
      match get_last_sync_time db2 project_id with
      | some last_sync =>
        if env.jsonlMtime > last_sync then
          let res := import_from_jsonl env.now db2 env.jsonlLines project_id
          set_last_sync_time res.2 project_id env.jsonlMtime
        else db2
      | none =>
        let res := import_from_jsonl env.now db2 env.jsonlLines project_id
        set_last_sync_time res.2 project_id env.jsonlMtime

/-- Result of `generate_id`: either a fresh id, or the distinct
`IDCollisionError` raised after exhausting the retries. -/
inductive GenIdResult where
  | ok (id : String)
  | idCollisionError (msg : String)
deriving DecidableEq, Repr

/-- The error message produced when retries are exhausted (the Python
message interpolates the project and retry count; the model keeps the
fixed text). -/
def idCollisionMsg : String :=
  "Unable to generate unique ID after max retries"

/-- The retry loop of `generate_id` from `trace_core/ids.py`.  `entropy`
abstracts the SHA-256 of title, nanosecond clock and random bytes: it
yields the 32-bit `hash_int` of each attempt. -/
def genIdGo (project : String) (existing_ids : List String) (entropy : Nat → Nat) :
    Nat → Nat → GenIdResult
  | _, 0 => .idCollisionError idCollisionMsg
  | attempt, remaining + 1 =>
    let id := project ++ "-" ++ String.mk (hashSuffix (entropy attempt))
    if existing_ids.contains id then
      genIdGo project existing_ids entropy (attempt + 1) remaining
    else .ok id

/-- `generate_id` from `trace_core/ids.py`.  The title only feeds the
entropy sources, which the model abstracts into `entropy`. -/
def generate_id (_title project : String) (existing_ids : List String)
    (max_retries : Nat) (entropy : Nat → Nat) : GenIdResult :=
  genIdGo project existing_ids entropy 0 max_retries



/-! Quick sanity checks of the embedding on the docstring examples. -/

example : validate_issue_belongs_to_project "myapp-abc123" "myapp" = true := by decide
example : validate_issue_belongs_to_project "other-abc123" "myapp" = false := by decide
example : validate_issue_belongs_to_project "change-capture-abc123" "change-capture" = true := by
  decide
example : validate_issue_belongs_to_project "change-capture-abc123" "change-capture-infra" = false := by
  decide
example : validate_issue_belongs_to_project "change-capture-infra-xyz789" "change-capture" = false := by
  decide
example : extract_project_name_from_issue_id "myapp-abc123" = some "myapp" := by decide
example : extract_project_name_from_issue_id "change-capture-infra-xyz789" = some "change-capture-infra" := by
  decide
example : extract_project_name_from_issue_id "invalid" = none := by decide

-- The divergence behind claim C1: Python `isalnum` accepts uppercase.
example : validate_issue_belongs_to_project "foo-ABC123" "foo" = true := by decide

example : sanitize_project_name "My Project" = "my-project" := by decide
example : sanitize_project_name "my_project" = "my-project" := by decide
example : sanitize_project_name "Special!@#Chars" = "special-chars" := by decide
example : String.mk (_to_base36 0) = "0" := by simp [_to_base36]
example : String.mk (_to_base36 35) = "z" := by
  rw [_to_base36, if_neg (by norm_num), toBase36Digits]
  norm_num [BASE36_CHARS]
  rw [toBase36Digits]; simp
example : String.mk (_to_base36 36) = "10" := by
  rw [_to_base36, if_neg (by norm_num), toBase36Digits]
  norm_num
  rw [toBase36Digits]
  norm_num [BASE36_CHARS]
  rw [toBase36Digits]; simp

/-- The id format asserted by claim C1: exactly the project name, one
hyphen, then 6 characters drawn from the base36 alphabet. -/
def specBase36Format (issue_id project_name : String) : Bool :=
  (project_name.data ++ ['-']).isPrefixOf issue_id.data &&
    issue_id.data.length == project_name.data.length + 7 &&
    (issue_id.data.drop (project_name.data.length + 1)).all isBase36Char

/-- No two adjacent hyphens: the invariant the hyphen-collapsing pass
establishes. -/
def DDok (a b : Char) : Prop := a ≠ '-' ∨ b ≠ '-'

/-- The single-parent invariant: no issue has two outgoing `parent`
edges. -/
def singleParent (deps : List Dep) : Prop :=
  ((deps.filter (fun d => d.type == "parent")).map (fun d => d.issue_id)).Nodup

instance (deps : List Dep) : Decidable (singleParent deps) :=
  inferInstanceAs (Decidable (List.Nodup _))

/-- Fixture: three issues and one parent edge; the edge endpoints and the
insert targets below all resolve, so the foreign-key pragma is satisfied. -/
def c7db : DB :=
  ⟨[⟨"a", "p", "A", "", "open", 2, "t0", "t0", none⟩,
    ⟨"b", "p", "B", "", "open", 2, "t0", "t0", none⟩,
    ⟨"c", "p", "C", "", "open", 2, "t0", "t0", none⟩], [],
    [⟨"a", "b", "parent", "t0"⟩], [], []⟩

/-- Lookup of an issue row by primary key (`SELECT * WHERE id = ?`). -/
def lookupIssue (issues : List Issue) (id : String) : Option Issue :=
  issues.find? (fun i => i.id == id)

/-- A snapshot record that repair counts as contaminated. -/
def contamRec (db0 : DB) (rec : String × String) : Bool :=
  match extract_project_name_from_issue_id rec.1 with
  | none => false
  | some _ => !(validate_issue_belongs_to_project rec.1 (currentProjectName db0 rec.2))

/-- A snapshot record that repair counts as repaired (contaminated with a
registered destination). -/
def repairedRec (db0 : DB) (rec : String × String) : Bool :=
  match extract_project_name_from_issue_id rec.1 with
  | none => false
  | some expected =>
    !(validate_issue_belongs_to_project rec.1 (currentProjectName db0 rec.2)) &&
      (find_project_by_name db0 expected).isSome

/-- A snapshot record that repair counts as orphaned (contaminated with no
registered destination). -/
def orphanRec (db0 : DB) (rec : String × String) : Bool :=
  match extract_project_name_from_issue_id rec.1 with
  | none => false
  | some expected =>
    !(validate_issue_belongs_to_project rec.1 (currentProjectName db0 rec.2)) &&
      (find_project_by_name db0 expected).isNone

/-- Fixture for C4: a contaminated record whose expected project is
registered under a URL handle whose current path differs from it. -/
def c4db : DB :=
  ⟨[⟨"foo-abc123", "barhandle", "T", "", "open", 2, "t1", "t2", none⟩],
    [⟨"github.com/u/r", "foo", "/home/u/r", none⟩], [], [], []⟩

/-- Fixture for C2: sync environment where the log is older than the
recorded last sync for the resolved handle. -/
def c2env : SyncEnv :=
  { detected := some ("github.com/u/r", "r"),
    traceDirExists := false, traceUuid := none, freshUuid := "u0",
    jsonlExists := true, jsonlMtime := 3, jsonlLines := [], now := "t" }

/-- Fixture for C2: a store holding one issue filed under the stale
path-handle of the project being synced, with a fresh last-sync stamp. -/
def c2db : DB :=
  ⟨[⟨"r-abc123", "/p", "A", "", "open", 2, "t1", "t2", none⟩], [], [], [],
    [("last_sync:github.com/u/r", "5")]⟩

/-- Fixture for the amended C2: a store with a current registry row, a
fresh last-sync stamp, and no stale handles. -/
def c2db2 : DB :=
  ⟨[⟨"p-abc123", "/p", "A", "", "open", 2, "t1", "t2", none⟩], [], [], [],
    [("last_sync:/p", "5")]⟩

/-- Fixture environment for the amended C2. -/
def c2env2 : SyncEnv :=
  { detected := some ("/p", "p"),
    traceDirExists := false, traceUuid := none, freshUuid := "u0",
    jsonlExists := true, jsonlMtime := 3, jsonlLines := [], now := "t" }

/-- The dependency rows of one issue (`WHERE issue_id = ?`). -/
def depsFor (deps : List Dep) (id : String) : List Dep :=
  deps.filter (fun d => d.issue_id == id)

/-- The comment rows of one issue (`WHERE issue_id = ?`). -/
def commentsFor (comments : List CommentRow) (id : String) : List CommentRow :=
  comments.filter (fun c => c.issue_id == id)

/-- A dependency edge without its creation timestamp. -/
def dtriple (d : Dep) : String × String × String := (d.issue_id, d.depends_on_id, d.type)

/-- A comment with every field the data model carries. -/
def ctuple (c : CommentRow) : String × String × String × String :=
  (c.issue_id, c.content, c.source, c.created_at)

/-- A store with two issues of one project, a parent edge and a comment:
the round-trip fixture. -/
def c3db : DB :=
  { issues := [⟨"demo-abc123", "demo", "A", "", "open", 2, "t0", "t1", none⟩,
      ⟨"demo-xyz789", "demo", "B", "d", "closed", 1, "t0", "t2", some "t2"⟩],
    projects := [⟨"demo", "demo", "/home/u/demo", none⟩],
    deps := [⟨"demo-abc123", "demo-xyz789", "parent", "t0"⟩],
    comments := [⟨"demo-abc123", "hello", "cli", "t1"⟩],
    metadata := [] }

/-- Characterization of `validate_issue_belongs_to_project`: it accepts
exactly the ids of the form `name ++ "-" ++ hash` with nonempty name and a
6-character alphanumeric hash. -/
theorem validate_iff (issue_id project_name : String) :
    validate_issue_belongs_to_project issue_id project_name = true ↔
      project_name.data ≠ [] ∧ ∃ h : List Char,
        issue_id.data = project_name.data ++ '-' :: h ∧
        h.length = 6 ∧ h.all pyIsAlnumChar = true := by
  unfold validate_issue_belongs_to_project
  constructor
  · intro hv
    split_ifs at hv with h1 h2 h3 h4
    simp only [Bool.or_eq_true, List.isEmpty_iff, not_or] at h1
    simp only [Bool.not_eq_true, Bool.not_eq_false', List.isPrefixOf_iff_prefix] at h3
    obtain ⟨t, ht⟩ := h3
    refine ⟨h1.2, t, ?_, ?_, ?_⟩
    · rw [← ht]; simp
    · have : issue_id.data.drop (project_name.data.length + 1) = t := by
        rw [← ht, List.drop_left']
        simp
      rw [this] at h4
      omega
    · have hd : issue_id.data.drop (project_name.data.length + 1) = t := by
        rw [← ht, List.drop_left']
        simp
      rw [hd] at hv
      simp only [pyStrIsAlnum, Bool.and_eq_true] at hv
      exact hv.2
  · rintro ⟨hp, t, ht, hlen, hall⟩
    have hne : issue_id.data ≠ [] := by simp [ht]
    rw [if_neg, if_neg, if_neg, if_neg]
    · have hd : issue_id.data.drop (project_name.data.length + 1) = t := by
        rw [ht, show project_name.data ++ '-' :: t = (project_name.data ++ ['-']) ++ t by simp,
          List.drop_left']
        simp
      rw [hd]
      simp [pyStrIsAlnum, hall, List.isEmpty_eq_false.mpr]
      rintro rfl
      simp at hlen
    · have hd : issue_id.data.drop (project_name.data.length + 1) = t := by
        rw [ht, show project_name.data ++ '-' :: t = (project_name.data ++ ['-']) ++ t by simp,
          List.drop_left']
        simp
      rw [hd, hlen]
      simp
    · simp only [Bool.not_eq_true, Bool.not_eq_false', List.isPrefixOf_iff_prefix, ht]
      exact ⟨t, by simp⟩
    · simp only [Bool.not_eq_true, Bool.not_eq_false', ht]
      simp [List.contains_eq_any_beq]
    · simp [hne, hp]

/-- A string equals `""` exactly when its character list is empty. -/
theorem string_eq_empty_iff (s : String) : s = "" ↔ s.data = [] := by
  constructor
  · rintro rfl; rfl
  · intro h
    cases s with
    | mk d => cases h; rfl

/-- C1 — corrected.  `validate_issue_belongs_to_project` does not restrict
the suffix to the base36 alphabet: the Python `isalnum` check also accepts
uppercase letters, so `validate("foo-ABC123", "foo")` is true although
`ABC123` is not base36. -/
theorem c1_base36_counterexample :
    validate_issue_belongs_to_project "foo-ABC123" "foo" = true ∧
    specBase36Format "foo-ABC123" "foo" = false := by
  constructor
  · decide
  · decide

/-- C1 (amended): `validate(issue_id, project_name)` returns true iff
`issue_id` is exactly `project_name`, then a hyphen, then exactly 6
alphanumeric characters (Python `isalnum`: digits and letters of either
case, not only base36); the exact-prefix examples of the claim hold. -/
theorem c1_validate_exact_format :
    (∀ issue_id project_name : String,
      validate_issue_belongs_to_project issue_id project_name = true ↔
        project_name ≠ "" ∧ ∃ h : List Char,
          issue_id.data = project_name.data ++ '-' :: h ∧
          h.length = 6 ∧ h.all pyIsAlnumChar = true) ∧
    validate_issue_belongs_to_project "foo-abc123" "foo" = true ∧
    validate_issue_belongs_to_project "foo-abc123" "foobar" = false ∧
    validate_issue_belongs_to_project "foobar-abc123" "foo" = false := by
  refine ⟨fun issue_id project_name => Iff.trans (validate_iff _ _) ?_,
    by decide, by decide, by decide⟩
  exact and_congr_left' (not_congr (string_eq_empty_iff project_name).symm)

/-- Auxiliary: `takeWhile` and `dropWhile` split a list at the first
character failing the predicate. -/
theorem takeWhile_append_cons (p : Char → Bool) (l1 : List Char) (x : Char) (l2 : List Char)
    (h : ∀ c ∈ l1, p c = true) (hx : p x = false) :
    (l1 ++ x :: l2).takeWhile p = l1 ∧ (l1 ++ x :: l2).dropWhile p = x :: l2 := by
  induction l1 with
  | nil => simp [List.takeWhile, List.dropWhile, hx]
  | cons a t ih =>
    have ha : p a = true := h a (by simp)
    have := ih (fun c hc => h c (by simp [hc]))
    simp [List.takeWhile, List.dropWhile, ha, this.1, this.2]

/-- An alphanumeric character is not a hyphen. -/
theorem pyIsAlnumChar_ne_dash {c : Char} (h : pyIsAlnumChar c = true) : c ≠ '-' := by
  rintro rfl
  simp [pyIsAlnumChar] at h

/-- C9 — confirmed.  Whenever the admission predicate accepts an id for a
project name, the repair tool's prefix extraction returns exactly that
name, hyphenated project names included: the hash part is alphanumeric, so
the last hyphen of the id is the separator the extraction splits at. -/
theorem c9_validate_extract_agree (issue_id project_name : String)
    (h : validate_issue_belongs_to_project issue_id project_name = true) :
    extract_project_name_from_issue_id issue_id = some project_name := by
  obtain ⟨hp, t, ht, hlen, hall⟩ := (validate_iff _ _).mp h
  have hrev : issue_id.data.reverse = t.reverse ++ '-' :: project_name.data.reverse := by
    rw [ht]; simp
  have htw := takeWhile_append_cons (fun c => decide (c ≠ '-')) t.reverse '-'
    project_name.data.reverse
    (fun c hc => by
      have := List.all_eq_true.mp hall c (List.mem_reverse.mp hc)
      simp [pyIsAlnumChar_ne_dash this])
    (by simp)
  unfold extract_project_name_from_issue_id
  rw [if_neg, if_neg]
  · rw [hrev, htw.2]
    simp [ht]
  · rw [hrev, htw.1]
    simp [hlen]
    intro c hc
    exact List.all_eq_true.mp hall c hc
  · rw [ht]
    simp [List.contains_eq_any_beq]

/-- Witness for C9 at a hyphenated project name. -/
theorem c9_witness :
    extract_project_name_from_issue_id "change-capture-abc123" = some "change-capture" :=
  c9_validate_extract_agree "change-capture-abc123" "change-capture" (by decide)

theorem char_le_iff_toNat (a b : Char) : a ≤ b ↔ a.toNat ≤ b.toNat := by
  rw [Char.le_def, UInt32.le_def]; rfl

theorem goodChar_cases {c : Char} (h : isJunkChar c = false) :
    ('a' ≤ c ∧ c ≤ 'z') ∨ ('0' ≤ c ∧ c ≤ '9') ∨ c = '-' := by
  by_cases h1 : 'a' ≤ c ∧ c ≤ 'z'
  · exact Or.inl h1
  by_cases h2 : '0' ≤ c ∧ c ≤ '9'
  · exact Or.inr (Or.inl h2)
  refine Or.inr (Or.inr ?_)
  simp only [isJunkChar, Bool.not_eq_false', Bool.or_eq_true, Bool.and_eq_true, beq_iff_eq,
    decide_eq_true_eq] at h
  tauto

theorem goodChar_toLower {c : Char} (h : isJunkChar c = false) : c.toLower = c := by
  unfold Char.toLower
  rw [if_neg]
  rcases goodChar_cases h with ⟨h1, h2⟩ | ⟨h1, h2⟩ | rfl
  · rw [char_le_iff_toNat] at h1 h2
    have ha : ('a').toNat = 97 := rfl
    omega
  · rw [char_le_iff_toNat] at h1 h2
    have h9 : ('9').toNat = 57 := rfl
    omega
  · decide

theorem goodChar_not_space_underscore {c : Char} (h : isJunkChar c = false) :
    isSpaceUnderscore c = false := by
  cases hs : isSpaceUnderscore c with
  | false => rfl
  | true =>
    exfalso
    simp only [isSpaceUnderscore, Char.isWhitespace, Bool.or_eq_true, beq_iff_eq,
      decide_eq_true_eq] at hs
    have hd : c = ' ' ∨ c = '\t' ∨ c = '\r' ∨ c = '\n' ∨ c = '_' := by tauto
    rcases hd with rfl | rfl | rfl | rfl | rfl <;> simp [isJunkChar] at h

theorem replaceRunsGo_of_all_not (p : Char → Bool) (l : List Char)
    (h : ∀ c ∈ l, p c = false) (b : Bool) : replaceRunsGo p b l = l := by
  induction l generalizing b with
  | nil => rfl
  | cons a t ih =>
    have ha : p a = false := h a (by simp)
    simp only [replaceRunsGo, ha, Bool.false_eq_true, if_false]
    rw [ih (fun c hc => h c (by simp [hc]))]

theorem mem_replaceRunsGo (p : Char → Bool) {c : Char} {l : List Char} {b : Bool}
    (h : c ∈ replaceRunsGo p b l) : c = '-' ∨ (p c = false ∧ c ∈ l) := by
  induction l generalizing b with
  | nil => simp [replaceRunsGo] at h
  | cons a t ih =>
    by_cases hp : p a = true
    · cases b with
      | true =>
        simp only [replaceRunsGo, hp, if_true] at h
        rcases ih h with h' | h'
        · exact Or.inl h'
        · exact Or.inr ⟨h'.1, by simp [h'.2]⟩
      | false =>
        simp only [replaceRunsGo, hp, if_true] at h
        rcases List.mem_cons.mp h with rfl | h'
        · exact Or.inl rfl
        · rcases ih h' with h'' | h''
          · exact Or.inl h''
          · exact Or.inr ⟨h''.1, by simp [h''.2]⟩
    · rw [Bool.not_eq_true] at hp
      simp only [replaceRunsGo, hp, Bool.false_eq_true, if_false] at h
      rcases List.mem_cons.mp h with rfl | h'
      · exact Or.inr ⟨hp, by simp⟩
      · rcases ih h' with h'' | h''
        · exact Or.inl h''
        · exact Or.inr ⟨h''.1, by simp [h''.2]⟩

theorem head_replaceRunsGo_true (l : List Char) :
    ∀ c, (replaceRunsGo dashP true l).head? = some c → c ≠ '-' := by
  induction l with
  | nil => intro c h; simp [replaceRunsGo] at h
  | cons a t ih =>
    intro c h
    by_cases hp : dashP a = true
    · simp only [replaceRunsGo, hp, if_true] at h
      exact ih c h
    · rw [Bool.not_eq_true] at hp
      simp only [replaceRunsGo, hp, Bool.false_eq_true, if_false, List.head?_cons,
        Option.some.injEq] at h
      subst h
      simpa [dashP] using hp

theorem chain_replaceRunsGo (l : List Char) (b : Bool) :
    List.Chain' DDok (replaceRunsGo dashP b l) := by
  induction l generalizing b with
  | nil => simp [replaceRunsGo]
  | cons a t ih =>
    by_cases hp : dashP a = true
    · cases b with
      | true => simpa only [replaceRunsGo, hp, if_true] using ih true
      | false =>
        simp only [replaceRunsGo, hp, if_true, Bool.false_eq_true, if_false]
        rw [List.chain'_cons']
        refine ⟨fun c hc => Or.inr (head_replaceRunsGo_true t c ?_), ih true⟩
        simpa using hc
    · rw [Bool.not_eq_true] at hp
      simp only [replaceRunsGo, hp, Bool.false_eq_true, if_false]
      rw [List.chain'_cons']
      refine ⟨fun c _ => Or.inl ?_, ih false⟩
      simpa [dashP] using hp

theorem replaceRunsGo_dash_fix (l : List Char) :
    (List.Chain' DDok l → replaceRunsGo dashP false l = l) ∧
    ((List.Chain' DDok l ∧ ∀ c, l.head? = some c → c ≠ '-') →
      replaceRunsGo dashP true l = l) := by
  induction l with
  | nil => exact ⟨fun _ => rfl, fun _ => rfl⟩
  | cons a t ih =>
    constructor
    · intro hc
      by_cases hp : dashP a = true
      · have ha : a = '-' := by simpa [dashP] using hp
        subst ha
        simp only [replaceRunsGo, hp, if_true, Bool.false_eq_true, if_false]
        congr 1
        apply ih.2
        rw [List.chain'_cons'] at hc
        refine ⟨hc.2, fun c hcc => ?_⟩
        rcases hc.1 c (by simpa using hcc) with h | h
        · exact absurd rfl h
        · exact h
      · rw [Bool.not_eq_true] at hp
        simp only [replaceRunsGo, hp, Bool.false_eq_true, if_false]
        congr 1
        exact ih.1 (List.chain'_cons'.mp hc).2
    · rintro ⟨hc, hh⟩
      by_cases hp : dashP a = true
      · exact absurd (by simpa [dashP] using hp) (hh a rfl)
      · rw [Bool.not_eq_true] at hp
        simp only [replaceRunsGo, hp, Bool.false_eq_true, if_false]
        congr 1
        exact ih.1 (List.chain'_cons'.mp hc).2

theorem head?_front {l1 l2 : List Char} (h : l1 <+: l2) {c : Char}
    (hc : l1.head? = some c) : l2.head? = some c := by
  obtain ⟨t, rfl⟩ := h
  cases l1 with
  | nil => simp at hc
  | cons a u => simpa using hc

theorem stripDashes_front (l : List Char) :
    stripDashes l <+: l.dropWhile dashP := by
  refine ⟨((l.dropWhile dashP).reverse.takeWhile dashP).reverse, ?_⟩
  rw [stripDashes, ← List.reverse_append, List.takeWhile_append_dropWhile, List.reverse_reverse]

theorem stripDashes_sublist (l : List Char) : List.Sublist (stripDashes l) l :=
  ((stripDashes_front l).sublist).trans (List.dropWhile_sublist dashP)

theorem head?_dropWhile_false (p : Char → Bool) (l : List Char) {c : Char}
    (hc : (l.dropWhile p).head? = some c) : p c = false := by
  have := List.head?_dropWhile_not p l
  rw [hc] at this
  exact this

theorem stripDashes_head (l : List Char) :
    ∀ c, (stripDashes l).head? = some c → c ≠ '-' := by
  intro c hc
  have h2 := head?_front (stripDashes_front l) hc
  have := head?_dropWhile_false dashP l h2
  simpa [dashP] using this

theorem stripDashes_last (l : List Char) :
    ∀ c, (stripDashes l).getLast? = some c → c ≠ '-' := by
  intro c hc
  rw [stripDashes, List.getLast?_reverse] at hc
  have := head?_dropWhile_false dashP _ hc
  simpa [dashP] using this

theorem chain_DDok_reverse (m : List Char) :
    List.Chain' DDok m.reverse ↔ List.Chain' DDok m := by
  rw [List.chain'_reverse]
  constructor
  · intro h
    exact h.imp fun _ _ hab => Or.symm hab
  · intro h
    exact h.imp fun _ _ hab => Or.symm hab

theorem chain_stripDashes (l : List Char) (h : List.Chain' DDok l) :
    List.Chain' DDok (stripDashes l) := by
  have h1 : List.Chain' DDok (l.dropWhile dashP) := h.suffix (List.dropWhile_suffix dashP)
  have h2 : List.Chain' DDok (l.dropWhile dashP).reverse := (chain_DDok_reverse _).mpr h1
  have h3 : List.Chain' DDok ((l.dropWhile dashP).reverse.dropWhile dashP) :=
    h2.suffix (List.dropWhile_suffix dashP)
  rw [stripDashes]
  exact (chain_DDok_reverse _).mpr h3

theorem stripDashes_fix (l : List Char)
    (hh : ∀ c, l.head? = some c → c ≠ '-')
    (hl : ∀ c, l.getLast? = some c → c ≠ '-') : stripDashes l = l := by
  have h1 : l.dropWhile dashP = l := by
    cases l with
    | nil => rfl
    | cons a t =>
      have : dashP a = false := by simpa [dashP] using hh a rfl
      simp [List.dropWhile, this]
  rw [stripDashes, h1]
  have h2 : l.reverse.dropWhile dashP = l.reverse := by
    cases hr : l.reverse with
    | nil => rfl
    | cons a t =>
      have ha : l.getLast? = some a := by
        rw [← List.head?_reverse, hr]
        rfl
      have : dashP a = false := by simpa [dashP] using hl a ha
      simp [List.dropWhile, this]
  rw [h2, List.reverse_reverse]

theorem map_id_of_mem {α : Type} {f : α → α} {l : List α} (h : ∀ x ∈ l, f x = x) :
    l.map f = l := by
  induction l with
  | nil => rfl
  | cons a t ih =>
    rw [List.map_cons, h a (by simp), ih (fun x hx => h x (by simp [hx]))]

theorem sanitize_data (s : String) :
    (sanitize_project_name s).data =
      stripDashes (replaceRuns dashP (replaceRuns isJunkChar
        (replaceRuns isSpaceUnderscore (s.data.map Char.toLower)))) := rfl

theorem sanitize_good (s : String) :
    ∀ c ∈ (sanitize_project_name s).data, isJunkChar c = false := by
  intro c hc
  rw [sanitize_data] at hc
  have h4 := (stripDashes_sublist _).mem hc
  rcases mem_replaceRunsGo dashP h4 with rfl | ⟨_, h3⟩
  · decide
  · rcases mem_replaceRunsGo isJunkChar h3 with rfl | ⟨hj, _⟩
    · decide
    · exact hj

theorem sanitize_chain (s : String) :
    List.Chain' DDok (sanitize_project_name s).data := by
  rw [sanitize_data]
  exact chain_stripDashes _ (chain_replaceRunsGo _ false)

theorem c10_sanitize_idempotent (s : String) :
    sanitize_project_name (sanitize_project_name s) = sanitize_project_name s := by
  have hgood := sanitize_good s
  have h1 : (sanitize_project_name s).data.map Char.toLower = (sanitize_project_name s).data :=
    map_id_of_mem (fun c hc => goodChar_toLower (hgood c hc))
  have h2 : replaceRuns isSpaceUnderscore (sanitize_project_name s).data =
      (sanitize_project_name s).data :=
    replaceRunsGo_of_all_not _ _ (fun c hc => goodChar_not_space_underscore (hgood c hc)) false
  have h3 : replaceRuns isJunkChar (sanitize_project_name s).data =
      (sanitize_project_name s).data :=
    replaceRunsGo_of_all_not _ _ hgood false
  have h4 : replaceRuns dashP (sanitize_project_name s).data = (sanitize_project_name s).data :=
    (replaceRunsGo_dash_fix _).1 (sanitize_chain s)
  have h5 : stripDashes (sanitize_project_name s).data = (sanitize_project_name s).data := by
    apply stripDashes_fix
    · intro c hc
      apply stripDashes_head _ c
      rw [← sanitize_data]; exact hc
    · intro c hc
      apply stripDashes_last _ c
      rw [← sanitize_data]; exact hc
  show String.mk (stripDashes (replaceRuns dashP (replaceRuns isJunkChar
    (replaceRuns isSpaceUnderscore ((sanitize_project_name s).data.map Char.toLower))))) =
      sanitize_project_name s
  rw [h1, h2, h3, h4, h5]

/-- Every base36 digit produced by indexing `BASE36_CHARS` with a
remainder below 36 is in the base36 alphabet. -/
theorem base36_getD_mem : ∀ r < 36, isBase36Char (BASE36_CHARS.getD r '0') = true := by
  decide

/-- Every character of `toBase36Digits` is in the base36 alphabet. -/
theorem toBase36Digits_base36 (n : Nat) :
    ∀ c ∈ toBase36Digits n, isBase36Char c = true := by
  induction n using Nat.strong_induction_on with
  | _ n ih =>
    intro c hc
    rw [toBase36Digits] at hc
    by_cases hn : n = 0
    · simp [hn] at hc
    · rw [if_neg hn] at hc
      rcases List.mem_append.mp hc with h | h
      · exact ih (n / 36) (Nat.div_lt_self (Nat.pos_of_ne_zero hn) (by norm_num)) c h
      · rw [List.mem_singleton.mp h]
        exact base36_getD_mem (n % 36) (Nat.mod_lt _ (by norm_num))

/-- Every character of `_to_base36` is in the base36 alphabet. -/
theorem _to_base36_base36 (n : Nat) : ∀ c ∈ _to_base36 n, isBase36Char c = true := by
  intro c hc
  rw [_to_base36] at hc
  by_cases hn : n = 0
  · rw [if_pos hn, List.mem_singleton] at hc
    rw [hc]; decide
  · rw [if_neg hn] at hc
    exact toBase36Digits_base36 n c hc

/-- The hash suffix has exactly `HASH_LENGTH` characters. -/
theorem hashSuffix_length (n : Nat) : (hashSuffix n).length = 6 := by
  rw [hashSuffix, zfill, List.length_append, List.length_replicate, List.length_take]
  have : min HASH_LENGTH (_to_base36 n).length ≤ HASH_LENGTH := Nat.min_le_left _ _
  simp only [HASH_LENGTH] at *
  omega

/-- Every character of the hash suffix is in the base36 alphabet. -/
theorem hashSuffix_base36 (n : Nat) : ∀ c ∈ hashSuffix n, isBase36Char c = true := by
  intro c hc
  rw [hashSuffix, zfill] at hc
  rcases List.mem_append.mp hc with h | h
  · rw [List.eq_of_mem_replicate h]; decide
  · exact _to_base36_base36 n c ((List.take_sublist _ _).mem h)

/-- The retry loop either returns a fresh well-formed id or exhausts its
fuel with the collision error. -/
theorem genIdGo_spec (project : String) (existing_ids : List String) (entropy : Nat → Nat)
    (remaining attempt : Nat) :
    (∃ id, genIdGo project existing_ids entropy attempt remaining = .ok id ∧
      (∃ h : List Char, id = project ++ "-" ++ String.mk h ∧ h.length = 6 ∧
        (∀ c ∈ h, isBase36Char c = true)) ∧ id ∉ existing_ids) ∨
    genIdGo project existing_ids entropy attempt remaining =
      .idCollisionError idCollisionMsg := by
  induction remaining generalizing attempt with
  | zero => exact Or.inr rfl
  | succ r ih =>
    rw [genIdGo]
    by_cases hc :
        existing_ids.contains (project ++ "-" ++ String.mk (hashSuffix (entropy attempt))) = true
    · rw [if_pos hc]
      exact ih (attempt + 1)
    · rw [Bool.not_eq_true] at hc
      rw [if_neg (by rw [hc]; exact Bool.false_ne_true)]
      exact Or.inl ⟨project ++ "-" ++ String.mk (hashSuffix (entropy attempt)), rfl,
        ⟨hashSuffix (entropy attempt), rfl, hashSuffix_length _, hashSuffix_base36 _⟩,
        by simpa using hc⟩

/-- C5 — confirmed.  `generate_id` either returns an id of the form
`{project}-` followed by 6 base36 characters that is not in the supplied
set of existing ids, or signals exhaustion of the retry bound with the
distinct `IDCollisionError`; it never returns a colliding id and no other
failure exists. -/
theorem c5_generate_id_fresh_or_collision (title project : String)
    (existing_ids : List String) (max_retries : Nat) (entropy : Nat → Nat) :
    (∃ id, generate_id title project existing_ids max_retries entropy = .ok id ∧
      (∃ h : List Char, id = project ++ "-" ++ String.mk h ∧ h.length = 6 ∧
        (∀ c ∈ h, isBase36Char c = true)) ∧ id ∉ existing_ids) ∨
    generate_id title project existing_ids max_retries entropy =
      .idCollisionError idCollisionMsg :=
  genIdGo_spec project existing_ids entropy max_retries 0

/-- C8 — confirmed.  `is_blocked` is true exactly when the issue has an
outgoing `blocks` edge whose target issue is recorded with a non-closed
status; the check is single-hop by construction, being a join between the
issue's own `blocks` rows and the issues table. -/
theorem c8_is_blocked_iff (db : DB) (issue_id : String) :
    is_blocked db issue_id = true ↔
      ∃ d ∈ db.deps, d.issue_id = issue_id ∧ d.type = "blocks" ∧
        ∃ i ∈ db.issues, i.id = d.depends_on_id ∧ i.status ≠ "closed" := by
  rw [is_blocked, decide_eq_true_eq, Nat.pos_iff_ne_zero, Ne, List.sum_eq_zero_iff]
  push_neg
  constructor
  · rintro ⟨x, hx, hxne⟩
    obtain ⟨d, hd, rfl⟩ := List.mem_map.mp hx
    obtain ⟨hdmem, hdp⟩ := List.mem_filter.mp hd
    simp only [Bool.and_eq_true, beq_iff_eq] at hdp
    obtain ⟨i, hi⟩ := List.exists_mem_of_length_pos (Nat.pos_of_ne_zero hxne)
    obtain ⟨himem, hip⟩ := List.mem_filter.mp hi
    simp only [Bool.and_eq_true, beq_iff_eq, bne_iff_ne] at hip
    exact ⟨d, hdmem, hdp.1, hdp.2, i, himem, hip.1, hip.2⟩
  · rintro ⟨d, hdmem, hd1, hd2, i, himem, hi1, hi2⟩
    refine ⟨(db.issues.filter
      (fun i => i.id == d.depends_on_id && i.status != "closed")).length, ?_, ?_⟩
    · exact List.mem_map.mpr ⟨d, List.mem_filter.mpr ⟨hdmem, by simp [hd1, hd2]⟩, rfl⟩
    · have : i ∈ db.issues.filter (fun i => i.id == d.depends_on_id && i.status != "closed") :=
        List.mem_filter.mpr ⟨himem, by simp [hi1, hi2]⟩
      exact Nat.pos_iff_ne_zero.mp (List.length_pos_of_mem this)

/-- Walking up from a node onto itself reports a cycle at once. -/
theorem detect_cycle_self (db : DB) (A : String) (hA : A ≠ "") :
    detect_cycle db A A = true := by
  rw [detect_cycle]
  rw [detectCycleGo]
  simp [hA]

/-- C6 — confirmed.  After `reparent_issue` places `A` under `B`, the
reverse reparent walks from `A` up its unique parent edge to `B`, detects
the cycle and is rejected with the cycle error before any mutation (the
operation returns the error without touching the dependencies table).
Issue ids are nonempty (the Python walk treats `""` as the end of a
chain). -/
theorem c6_reparent_cycle_rejected (db db1 : DB) (now now2 A B : String)
    (hA : A ≠ "") (hB : B ≠ "")
    (h1 : reparent_issue now db A (some B) = .ok db1) :
    reparent_issue now2 db1 B (some A) = .error cycleMsg := by
  rw [reparent_issue] at h1
  by_cases hdc : detect_cycle db A B = true
  · rw [if_pos hdc] at h1
    cases h1
  · rw [if_neg hdc] at h1
    have hAB : A ≠ B := by
      rintro rfl
      exact hdc (detect_cycle_self db A hA)
    have hdb1 : db1.deps =
        db.deps.filter (fun d => !(d.issue_id == A && d.type == "parent")) ++
          [⟨A, B, "parent", now⟩] := by
      cases h1
      rfl
    rw [reparent_issue, if_pos]
    rw [detect_cycle, hdb1]
    have hlen : (db.deps.filter (fun d => !(d.issue_id == A && d.type == "parent")) ++
        [(⟨A, B, "parent", now⟩ : Dep)]).length =
        (db.deps.filter (fun d => !(d.issue_id == A && d.type == "parent"))).length + 1 := by
      simp
    rw [hlen]
    rw [detectCycleGo]
    rw [if_neg hA, if_neg hAB, if_neg (by simp)]
    have hpar : ((get_dependencies db1 A).filter (fun d => d.type == "parent")) =
        [⟨A, B, "parent", now⟩] := by
      rw [get_dependencies, hdb1]
      simp only [List.filter_append, List.filter_filter]
      rw [List.filter_eq_nil_iff.mpr, List.nil_append]
      · simp
      · intro d _
        by_cases hq1 : d.issue_id == A <;> by_cases hq2 : d.type == "parent" <;>
          simp [hq1, hq2]
    rw [hpar]
    show detectCycleGo db1 B B [A]
      ((db.deps.filter (fun d => !(d.issue_id == A && d.type == "parent"))).length + 1) = true
    rw [detectCycleGo]
    simp [hB]

/-- Witness for C6: reparenting `a` under `b` in an empty store, then
attempting to reparent `b` under `a`, hits the cycle error. -/
theorem c6_witness :
    reparent_issue "t2" (⟨[], [], [⟨"a", "b", "parent", "t1"⟩], [], []⟩ : DB) "b" (some "a") =
      .error cycleMsg :=
  c6_reparent_cycle_rejected ⟨[], [], [], [], []⟩ _ "t1" "t2" "a" "b"
    (by decide) (by decide) (by decide)

/-- C7 — corrected, counterexample part.  `add_dependency` does not
enforce the single-parent invariant: with both endpoints present in the
issues table the foreign keys resolve, and its `INSERT OR IGNORE` only
deduplicates the `(issue_id, depends_on_id)` pair, so adding a `parent`
edge towards a second target succeeds and leaves the issue with two
outgoing parent edges. -/
theorem c7_add_dependency_counterexample :
    singleParent c7db.deps ∧
    add_dependency "t1" c7db "a" "c" "parent" =
      .ok { c7db with deps := c7db.deps ++ [⟨"a", "c", "parent", "t1"⟩] } ∧
    ¬ singleParent (c7db.deps ++ [⟨"a", "c", "parent", "t1"⟩]) := by
  refine ⟨by decide, by decide, by decide⟩

/-- C7 (amended): `reparent_issue` preserves the single-parent invariant —
it first deletes every outgoing parent edge of the issue and inserts at
most one new one. -/
theorem c7_reparent_preserves_single_parent (now : String) (db db1 : DB) (X : String)
    (p : Option String) (hsp : singleParent db.deps)
    (hok : reparent_issue now db X p = .ok db1) : singleParent db1.deps := by
  cases p with
  | none =>
    rw [reparent_issue] at hok
    cases hok
    have h1 := List.filter_sublist (p := fun d => !(d.issue_id == X && d.type == "parent"))
      db.deps
    exact hsp.sublist ((h1.filter (fun d => d.type == "parent")).map (fun d => d.issue_id))
  | some np =>
    rw [reparent_issue] at hok
    by_cases hdc : detect_cycle db X np = true
    · rw [if_pos hdc] at hok
      cases hok
    · rw [if_neg hdc] at hok
      cases hok
      show (((db.deps.filter (fun d => !(d.issue_id == X && d.type == "parent")) ++
        [(⟨X, np, "parent", now⟩ : Dep)]).filter (fun d => d.type == "parent")).map
          (fun d => d.issue_id)).Nodup
      rw [List.filter_append, List.map_append]
      have he : ([(⟨X, np, "parent", now⟩ : Dep)].filter (fun d => d.type == "parent")).map
          (fun d => d.issue_id) = [X] := by simp
      rw [he, List.nodup_append]
      have h1 := List.filter_sublist (p := fun d => !(d.issue_id == X && d.type == "parent"))
        db.deps
      refine ⟨hsp.sublist ((h1.filter (fun d => d.type == "parent")).map (fun d => d.issue_id)),
        List.nodup_singleton X, fun a ha hax => ?_⟩
      rw [List.mem_singleton.mp hax] at ha
      obtain ⟨d, hd, hdX⟩ := List.mem_map.mp ha
      obtain ⟨hd2, hdp⟩ := List.mem_filter.mp hd
      obtain ⟨_, hdk⟩ := List.mem_filter.mp hd2
      rw [hdX, hdp] at hdk
      simp at hdk

/-- Witness for the amended C7: a concrete reparent keeps the invariant. -/
theorem c7_witness :
    singleParent ((⟨[⟨"a", "p", "A", "", "open", 2, "t0", "t0", none⟩,
      ⟨"b", "p", "B", "", "open", 2, "t0", "t0", none⟩,
      ⟨"c", "p", "C", "", "open", 2, "t0", "t0", none⟩], [],
      [⟨"a", "c", "parent", "t2"⟩], [], []⟩ : DB).deps) :=
  c7_reparent_preserves_single_parent "t2" c7db
    ⟨[⟨"a", "p", "A", "", "open", 2, "t0", "t0", none⟩,
      ⟨"b", "p", "B", "", "open", 2, "t0", "t0", none⟩,
      ⟨"c", "p", "C", "", "open", 2, "t0", "t0", none⟩], [],
      [⟨"a", "c", "parent", "t2"⟩], [], []⟩ "a" (some "c")
    (by decide) (by decide)

/-- One repair step bumps the counters according to the record's class
and never shrinks the affected set. -/
theorem repairStep_stats (db0 : DB) (dry : Bool) (st : RepairStats × List Issue)
    (rec : String × String) :
    (repairStep db0 dry st rec).1.repaired =
      st.1.repaired + (if repairedRec db0 rec then 1 else 0) ∧
    (repairStep db0 dry st rec).1.orphaned =
      st.1.orphaned + (if orphanRec db0 rec then 1 else 0) ∧
    ∀ x ∈ st.1.affected_projects, x ∈ (repairStep db0 dry st rec).1.affected_projects := by
  rw [repairStep, repairedRec, orphanRec]
  cases hex : extract_project_name_from_issue_id rec.1 with
  | none => exact ⟨rfl, rfl, fun x hx => hx⟩
  | some expected =>
    by_cases hv : validate_issue_belongs_to_project rec.1 (currentProjectName db0 rec.2) = true
    · simp only [hv, if_pos]
      exact ⟨by simp, by simp, fun x hx => hx⟩
    · rw [Bool.not_eq_true] at hv
      simp only [hv, Bool.not_false, Bool.true_and, if_neg (by simp : ¬ false = true)]
      cases hf : find_project_by_name db0 expected with
      | some proj =>
        refine ⟨by simp, by simp, fun x hx => ?_⟩
        simp only [addAffected]
        split_ifs <;> simp [hx]
      | none =>
        refine ⟨by simp, by simp, fun x hx => ?_⟩
        simp only [addAffected]
        split_ifs <;> simp [hx]

/-- Folding the repair loop accumulates the repaired/orphaned counters as
the count of matching snapshot records, and the affected set only grows. -/
theorem repair_foldl_stats (db0 : DB) (dry : Bool) (snap : List (String × String))
    (st : RepairStats × List Issue) :
    ((snap.foldl (repairStep db0 dry) st).1.repaired =
      st.1.repaired + snap.countP (repairedRec db0)) ∧
    ((snap.foldl (repairStep db0 dry) st).1.orphaned =
      st.1.orphaned + snap.countP (orphanRec db0)) ∧
    ∀ x ∈ st.1.affected_projects,
      x ∈ (snap.foldl (repairStep db0 dry) st).1.affected_projects := by
  induction snap generalizing st with
  | nil => simp
  | cons rec rest ih =>
    have hstep := repairStep_stats db0 dry st rec
    have hrest := ih (repairStep db0 dry st rec)
    refine ⟨?_, ?_, ?_⟩
    · rw [List.foldl_cons, hrest.1, hstep.1, List.countP_cons]
      by_cases h : repairedRec db0 rec = true <;> simp [h] <;> omega
    · rw [List.foldl_cons, hrest.2.1, hstep.2.1, List.countP_cons]
      by_cases h : orphanRec db0 rec = true <;> simp [h] <;> omega
    · intro x hx
      exact hrest.2.2 x (hstep.2.2 x hx)

/-- Updating rows keyed on a different id does not change a lookup. -/
theorem lookupIssue_map_other (issues : List Issue) (x path rid : String) (h : x ≠ rid) :
    lookupIssue (issues.map
      (fun i => if i.id == x then { i with project_id := path } else i)) rid =
      lookupIssue issues rid := by
  induction issues with
  | nil => rfl
  | cons i rest ih =>
    have hid : (if i.id == x then { i with project_id := path } else i).id = i.id := by
      split_ifs <;> rfl
    by_cases hr : (i.id == rid) = true
    · rw [lookupIssue, List.map_cons,
        List.find?_cons_of_pos (p := fun j : Issue => j.id == rid) _ (by simp only [hid]; exact hr),
        lookupIssue, List.find?_cons_of_pos (p := fun j : Issue => j.id == rid) _ hr]
      have hx : (i.id == x) = false := by
        rw [beq_eq_false_iff_ne, beq_iff_eq.mp hr]
        exact Ne.symm h
      rw [if_neg (by rw [hx]; exact Bool.false_ne_true)]
    · rw [lookupIssue, List.map_cons,
        List.find?_cons_of_neg (p := fun j : Issue => j.id == rid) _ (by simp only [hid]; exact hr),
        lookupIssue, List.find?_cons_of_neg (p := fun j : Issue => j.id == rid) _ hr]
      exact ih

/-- Updating rows keyed on the looked-up id rewrites the looked-up row. -/
theorem lookupIssue_map_self (issues : List Issue) (x path : String) :
    lookupIssue (issues.map
      (fun i => if i.id == x then { i with project_id := path } else i)) x =
      (lookupIssue issues x).map (fun i => { i with project_id := path }) := by
  induction issues with
  | nil => rfl
  | cons i rest ih =>
    have hid : (if i.id == x then { i with project_id := path } else i).id = i.id := by
      split_ifs <;> rfl
    by_cases hr : (i.id == x) = true
    · rw [lookupIssue, List.map_cons,
        List.find?_cons_of_pos (p := fun j : Issue => j.id == x) _ (by simp only [hid]; exact hr),
        lookupIssue, List.find?_cons_of_pos (p := fun j : Issue => j.id == x) _ hr,
        Option.map_some', if_pos hr]
    · rw [lookupIssue, List.map_cons,
        List.find?_cons_of_neg (p := fun j : Issue => j.id == x) _ (by simp only [hid]; exact hr),
        lookupIssue, List.find?_cons_of_neg (p := fun j : Issue => j.id == x) _ hr]
      exact ih

/-- A fold over records none of which carry the looked-up id leaves that
issue's row unchanged. -/
theorem repair_foldl_lookup_other (db0 : DB) (dry : Bool) (snap : List (String × String))
    (st : RepairStats × List Issue) (rid : String)
    (hno : ∀ rec ∈ snap, rec.1 ≠ rid) :
    lookupIssue ((snap.foldl (repairStep db0 dry) st).2) rid = lookupIssue st.2 rid := by
  induction snap generalizing st with
  | nil => rfl
  | cons rec rest ih =>
    rw [List.foldl_cons, ih _ (fun r hr => hno r (by simp [hr]))]
    have hrec : rec.1 ≠ rid := hno rec (by simp)
    rw [repairStep]
    cases extract_project_name_from_issue_id rec.1 with
    | none => rfl
    | some expected =>
      by_cases hv : validate_issue_belongs_to_project rec.1 (currentProjectName db0 rec.2) = true
      · simp only [hv, if_pos]
      · rw [Bool.not_eq_true] at hv
        simp only [hv, if_neg (by simp : ¬ false = true)]
        cases find_project_by_name db0 expected with
        | some proj =>
          cases dry with
          | true => rfl
          | false => exact lookupIssue_map_other st.2 rec.1 proj.current_path rid hrec
        | none => rfl

/-- With duplicate-free ids, lookup of a member returns that member. -/
theorem lookupIssue_self (issues : List Issue) (i : Issue)
    (hnd : (issues.map (fun j => j.id)).Nodup) (hmem : i ∈ issues) :
    lookupIssue issues i.id = some i := by
  induction issues with
  | nil => cases hmem
  | cons a rest ih =>
    rw [List.map_cons, List.nodup_cons] at hnd
    rcases List.mem_cons.mp hmem with rfl | hmem2
    · rw [lookupIssue, List.find?_cons_of_pos (p := fun j : Issue => j.id == i.id) _ (by simp)]
    · have hne : (a.id == i.id) = false := by
        rw [beq_eq_false_iff_ne]
        intro he
        exact hnd.1 (he ▸ List.mem_map.mpr ⟨i, hmem2, rfl⟩)
      rw [lookupIssue, List.find?_cons_of_neg (p := fun j : Issue => j.id == i.id) _ (by simp [hne])]
      exact ih hnd.2 hmem2

/-- Self-membership in the affected set after insertion. -/
theorem mem_addAffected_self (l : List String) (x : String) : x ∈ addAffected l x := by
  rw [addAffected]
  split_ifs with h
  · exact h
  · simp

/-- Insertion preserves membership in the affected set. -/
theorem mem_addAffected_of_mem (l : List String) (x y : String) (h : y ∈ l) :
    y ∈ addAffected l x := by
  rw [addAffected]
  split_ifs
  · exact h
  · simp [h]

/-- C4 — corrected.  For a contaminated record whose expected project is
registered, non-dry-run repair reassigns the record to that project's
`current_path` (not its handle: see the counterexample), counts it among
the repaired, and puts both the source project reference and the
destination path into the affected list; with no registered project of
that name the record is counted orphaned and left untouched. -/
theorem c4_repair_reassigns_or_orphans (db : DB) (i : Issue) (expected : String)
    (hnd : (db.issues.map (fun j => j.id)).Nodup)
    (hmem : i ∈ db.issues)
    (hex : extract_project_name_from_issue_id i.id = some expected)
    (hcon : validate_issue_belongs_to_project i.id (currentProjectName db i.project_id) = false) :
    (∀ proj, find_project_by_name db expected = some proj →
      lookupIssue (repair_contaminated_issues db none false).2.issues i.id =
          some { i with project_id := proj.current_path } ∧
        i.project_id ∈ (repair_contaminated_issues db none false).1.affected_projects ∧
        proj.current_path ∈ (repair_contaminated_issues db none false).1.affected_projects ∧
        (repair_contaminated_issues db none false).1.repaired =
          (db.issues.map (fun j => (j.id, j.project_id))).countP (repairedRec db) ∧
        repairedRec db (i.id, i.project_id) = true) ∧
    (find_project_by_name db expected = none →
      lookupIssue (repair_contaminated_issues db none false).2.issues i.id = some i ∧
        (repair_contaminated_issues db none false).1.orphaned =
          (db.issues.map (fun j => (j.id, j.project_id))).countP (orphanRec db) ∧
        orphanRec db (i.id, i.project_id) = true) := by
  obtain ⟨l1, l2, hsplit⟩ := List.append_of_mem hmem
  have hres1 : (repair_contaminated_issues db none false).1 =
      ((db.issues.map (fun j => (j.id, j.project_id))).foldl (repairStep db false)
        (⟨0, 0, 0, 0, []⟩, db.issues)).1 := rfl
  have hres2 : (repair_contaminated_issues db none false).2.issues =
      ((db.issues.map (fun j => (j.id, j.project_id))).foldl (repairStep db false)
        (⟨0, 0, 0, 0, []⟩, db.issues)).2 := rfl
  have hstats := repair_foldl_stats db false (db.issues.map (fun j => (j.id, j.project_id)))
    (⟨0, 0, 0, 0, []⟩, db.issues)
  have hids : (l1.map (fun j => j.id) ++ i.id :: l2.map (fun j => j.id)).Nodup := by
    rw [hsplit] at hnd
    simpa using hnd
  have hnotin : i.id ∉ l1.map (fun j => j.id) ++ l2.map (fun j => j.id) :=
    (List.nodup_cons.mp (List.nodup_middle.mp hids)).1
  have hno1 : ∀ rec ∈ l1.map (fun j => (j.id, j.project_id)), rec.1 ≠ i.id := by
    intro rec hrec
    obtain ⟨j, hj, he⟩ := List.mem_map.mp hrec
    cases he
    intro heq
    exact hnotin (List.mem_append.mpr (Or.inl (List.mem_map.mpr ⟨j, hj, heq⟩)))
  have hno2 : ∀ rec ∈ l2.map (fun j => (j.id, j.project_id)), rec.1 ≠ i.id := by
    intro rec hrec
    obtain ⟨j, hj, he⟩ := List.mem_map.mp hrec
    cases he
    intro heq
    exact hnotin (List.mem_append.mpr (Or.inr (List.mem_map.mpr ⟨j, hj, heq⟩)))
  have hsnapsplit : db.issues.map (fun j => (j.id, j.project_id)) =
      l1.map (fun j => (j.id, j.project_id)) ++ (i.id, i.project_id) ::
        l2.map (fun j => (j.id, j.project_id)) := by
    rw [hsplit, List.map_append, List.map_cons]
  have hfold : ∀ st : RepairStats × List Issue,
      (db.issues.map (fun j => (j.id, j.project_id))).foldl (repairStep db false) st =
        (l2.map (fun j => (j.id, j.project_id))).foldl (repairStep db false)
          (repairStep db false
            ((l1.map (fun j => (j.id, j.project_id))).foldl (repairStep db false) st)
            (i.id, i.project_id)) := by
    intro st
    rw [hsnapsplit, List.foldl_append, List.foldl_cons]
  have hlookup1 : lookupIssue ((l1.map (fun j => (j.id, j.project_id))).foldl
      (repairStep db false) (⟨0, 0, 0, 0, []⟩, db.issues)).2 i.id = some i := by
    rw [repair_foldl_lookup_other db false _ _ i.id hno1]
    exact lookupIssue_self db.issues i hnd hmem
  constructor
  · intro proj hf
    have hrr : repairedRec db (i.id, i.project_id) = true := by
      rw [repairedRec]
      simp only [hex, hcon, hf]
      simp
    have hstep : repairStep db false
        ((l1.map (fun j => (j.id, j.project_id))).foldl (repairStep db false)
          (⟨0, 0, 0, 0, []⟩, db.issues)) (i.id, i.project_id) =
        ({ (((l1.map (fun j => (j.id, j.project_id))).foldl (repairStep db false)
            (⟨0, 0, 0, 0, []⟩, db.issues)).1) with
            examined := (((l1.map (fun j => (j.id, j.project_id))).foldl (repairStep db false)
              (⟨0, 0, 0, 0, []⟩, db.issues)).1).examined + 1,
            contaminated := (((l1.map (fun j => (j.id, j.project_id))).foldl (repairStep db false)
              (⟨0, 0, 0, 0, []⟩, db.issues)).1).contaminated + 1,
            repaired := (((l1.map (fun j => (j.id, j.project_id))).foldl (repairStep db false)
              (⟨0, 0, 0, 0, []⟩, db.issues)).1).repaired + 1,
            affected_projects := addAffected (addAffected
              ((((l1.map (fun j => (j.id, j.project_id))).foldl (repairStep db false)
                (⟨0, 0, 0, 0, []⟩, db.issues)).1).affected_projects) i.project_id)
              proj.current_path },
          (((l1.map (fun j => (j.id, j.project_id))).foldl (repairStep db false)
            (⟨0, 0, 0, 0, []⟩, db.issues)).2).map
            (fun j => if j.id == i.id then { j with project_id := proj.current_path } else j)) := by
      rw [repairStep]
      simp only [hex, hcon, hf]
      simp only [Bool.false_eq_true, if_false]
    refine ⟨?_, ?_, ?_, ?_, hrr⟩
    · rw [hres2, hfold, repair_foldl_lookup_other db false _ _ i.id hno2, hstep]
      rw [lookupIssue_map_self, hlookup1]
      rfl
    · rw [hres1, hfold]
      have hmono := (repair_foldl_stats db false (l2.map (fun j => (j.id, j.project_id)))
        (repairStep db false
          ((l1.map (fun j => (j.id, j.project_id))).foldl (repairStep db false)
            (⟨0, 0, 0, 0, []⟩, db.issues)) (i.id, i.project_id))).2.2
      apply hmono
      rw [hstep]
      exact mem_addAffected_of_mem _ _ _ (mem_addAffected_self _ _)
    · rw [hres1, hfold]
      have hmono := (repair_foldl_stats db false (l2.map (fun j => (j.id, j.project_id)))
        (repairStep db false
          ((l1.map (fun j => (j.id, j.project_id))).foldl (repairStep db false)
            (⟨0, 0, 0, 0, []⟩, db.issues)) (i.id, i.project_id))).2.2
      apply hmono
      rw [hstep]
      exact mem_addAffected_self _ _
    · rw [hres1, hstats.1]
      exact Nat.zero_add _
  · intro hf
    have hor : orphanRec db (i.id, i.project_id) = true := by
      rw [orphanRec]
      simp only [hex, hcon, hf]
      simp
    have hstep : (repairStep db false
        ((l1.map (fun j => (j.id, j.project_id))).foldl (repairStep db false)
          (⟨0, 0, 0, 0, []⟩, db.issues)) (i.id, i.project_id)).2 =
        (((l1.map (fun j => (j.id, j.project_id))).foldl (repairStep db false)
          (⟨0, 0, 0, 0, []⟩, db.issues)).2) := by
      rw [repairStep]
      simp only [hex, hcon, hf]
      simp only [Bool.false_eq_true, if_false]
    refine ⟨?_, ?_, hor⟩
    · rw [hres2, hfold, repair_foldl_lookup_other db false _ _ i.id hno2, hstep]
      exact hlookup1
    · rw [hres1, hstats.2.1]
      exact Nat.zero_add _

/-- C4 — counterexample to the claim as stated: the repair reassigns the
record's project reference to the registered project's `current_path`,
which is not that project's handle (`projects.id`). -/
theorem c4_counterexample :
    find_project_by_name c4db "foo" =
      some ⟨"github.com/u/r", "foo", "/home/u/r", none⟩ ∧
    extract_project_name_from_issue_id "foo-abc123" = some "foo" ∧
    validate_issue_belongs_to_project "foo-abc123" (currentProjectName c4db "barhandle") = false ∧
    (repair_contaminated_issues c4db none false).2.issues =
      [⟨"foo-abc123", "/home/u/r", "T", "", "open", 2, "t1", "t2", none⟩] ∧
    ("/home/u/r" : String) ≠ "github.com/u/r" := by
  exact ⟨by decide, by decide, by decide, by decide, by decide⟩

/-- Witness for the amended C4 at the fixture store. -/
theorem c4_witness :
    lookupIssue (repair_contaminated_issues c4db none false).2.issues "foo-abc123" =
      some ⟨"foo-abc123", "/home/u/r", "T", "", "open", 2, "t1", "t2", none⟩ :=
  ((c4_repair_reassigns_or_orphans c4db
      ⟨"foo-abc123", "barhandle", "T", "", "open", 2, "t1", "t2", none⟩ "foo"
      (by decide) (by decide) (by decide) (by decide)).1
    ⟨"github.com/u/r", "foo", "/home/u/r", none⟩ (by decide)).1

/-- C2 — counterexample to the claim as stated: even though a last-sync
timestamp is recorded for the resolved handle and the log is not newer,
`sync_project` still mutates the store, because the identity auto-merge
runs before the staleness gate and rewrites issues filed under the stale
path-handle (and re-registers the project). -/
theorem c2_counterexample :
    get_last_sync_time c2db "github.com/u/r" = some 5 ∧
    c2env.jsonlMtime ≤ 5 ∧
    c2env.jsonlExists = true ∧
    (sync_project c2env "/p" c2db).issues ≠ c2db.issues ∧
    (sync_project c2env "/p" c2db).projects ≠ c2db.projects := by
  exact ⟨by decide, by decide, by decide, by decide, by decide⟩

/-- A fold of auto-merge steps that all fix the store fixes the store. -/
theorem foldl_autoMerge_fixed (pid name path : String) (db : DB) (l : List String)
    (h : ∀ old ∈ l, autoMergeStep pid name path db old = db) :
    l.foldl (autoMergeStep pid name path) db = db := by
  induction l with
  | nil => rfl
  | cons a rest ih =>
    rw [List.foldl_cons, h a (by simp)]
    exact ih (fun old ho => h old (by simp [ho]))

/-- C2 (amended): `sync_project` leaves the store exactly unchanged when a
last-sync timestamp is recorded for the resolved handle and the log is not
newer — provided the registry row the sync would (re)write is already
current and no other stored handle resolves to the path being synced (the
auto-merge, which runs before the staleness gate, has nothing to do). -/
theorem c2_sync_noop_amended (env : SyncEnv) (db : DB) (project_path pid name : String) (t : Int)
    (hdet : env.detected = some (pid, name))
    (hreg : env.traceDirExists = true →
      insertOrReplaceProject db.projects
        ⟨pid, name, project_path,
          some (match env.traceUuid with | some u => u | none => env.freshUuid)⟩ = db.projects)
    (hmerge : ∀ old ∈ (db.issues.map (fun i => i.project_id)).eraseDups, old ≠ pid →
      old ≠ project_path ∧
        (db.projects.find? (fun q => q.id == old)).map (fun p => p.current_path) ≠
          some project_path)
    (hlast : get_last_sync_time db pid = some t)
    (hmtime : env.jsonlMtime ≤ t) :
    sync_project env project_path db = db := by
  rw [sync_project, hdet]
  simp only []
  have hdb1 : (if env.traceDirExists then
      { db with
          projects := insertOrReplaceProject db.projects
            ⟨pid, name, project_path,
              some (match env.traceUuid with | some u => u | none => env.freshUuid)⟩ }
      else db) = db := by
    by_cases htd : env.traceDirExists = true
    · rw [if_pos htd, hreg htd]
    · rw [if_neg htd]
  rw [hdb1]
  have hsteps : ∀ old ∈ (db.issues.map (fun i => i.project_id)).eraseDups,
      autoMergeStep pid name project_path db old = db := by
    intro old ho
    rw [autoMergeStep]
    by_cases hop : (old == pid) = true
    · rw [if_pos hop]
    · rw [if_neg hop]
      obtain ⟨h1, h2⟩ := hmerge old ho (by simpa using hop)
      have hs : (old == project_path ||
          (match db.projects.find? (fun p => p.id == old) with
           | some p => p.current_path == project_path
           | none => false)) = false := by
        rw [Bool.or_eq_false_iff]
        refine ⟨by simpa using h1, ?_⟩
        cases hfp : db.projects.find? (fun p => p.id == old) with
        | none => rfl
        | some p =>
          rw [hfp, Option.map_some'] at h2
          simp only [beq_eq_false_iff_ne]
          intro he
          exact h2 (by rw [he])
      rw [if_neg (by rw [hs]; exact Bool.false_ne_true)]
  rw [foldl_autoMerge_fixed pid name project_path db _ hsteps]
  by_cases hje : (!env.jsonlExists) = true
  · rw [if_pos hje]
  · rw [if_neg hje]
    rw [hlast]
    show (if env.jsonlMtime > t then
      set_last_sync_time (import_from_jsonl env.now db env.jsonlLines pid).2 pid env.jsonlMtime
      else db) = db
    rw [if_neg (by omega)]

/-- Witness for the amended C2. -/
theorem c2_witness : sync_project c2env2 "/p" c2db2 = c2db2 :=
  c2_sync_noop_amended c2env2 c2db2 "/p" "/p" "p" 5 (by decide) (by decide)
    (by decide) (by decide) (by decide)

/-- Two issues of a duplicate-free table with the same id are the same
row. -/
theorem eq_of_mem_nodup_id {issues : List Issue} (hnd : (issues.map (fun j => j.id)).Nodup)
    {a b : Issue} (ha : a ∈ issues) (hb : b ∈ issues) (he : a.id = b.id) : a = b :=
  List.inj_on_of_nodup_map hnd ha hb he

/-- An import line whose fields coincide with a stored row leaves the
issues table unchanged (the update writes back identical values; a line
that fails validation is skipped). -/
theorem importIssueLine_fixed (pid pn : String) (issues : List Issue)
    (hnd : (issues.map (fun j => j.id)).Nodup)
    (st : ImportStats × List Issue) (hst : st.2 = issues)
    (l : ExportedIssue) (i : Issue) (hi : i ∈ issues)
    (hfields : l.id = i.id ∧ l.title = i.title ∧ l.description = i.description ∧
      l.status = i.status ∧ l.priority = i.priority ∧ l.updated_at = i.updated_at ∧
      l.closed_at = i.closed_at) :
    (importIssueLine pid pn st l).2 = issues := by
  rw [importIssueLine]
  by_cases hv : validate_issue_belongs_to_project l.id pn = true
  · rw [if_neg (by rw [hv]; simp)]
    have hfind : st.2.find? (fun j => j.id == l.id) = some i := by
      rw [hst, hfields.1]
      exact lookupIssue_self issues i hnd hi
    rw [hfind, hst]
    apply map_id_of_mem
    intro j hj
    by_cases hji : (j.id == l.id) = true
    · rw [if_pos hji]
      have : j = i := eq_of_mem_nodup_id hnd hj hi (by rw [← hfields.1]; exact beq_iff_eq.mp hji)
      subst this
      obtain ⟨h1, h2, h3, h4, h5, h6, h7⟩ := hfields
      rw [h2, h3, h4, h5, h6, h7]
    · rw [if_neg hji]
  · rw [Bool.not_eq_true] at hv
    rw [if_pos (by rw [hv]; simp)]
    exact hst

/-- The issue phase of the import leaves the issues table unchanged when
every line restates a stored row. -/
theorem importIssuePhase_fixed (pid pn : String) (issues : List Issue)
    (hnd : (issues.map (fun j => j.id)).Nodup)
    (lines : List ExportedIssue)
    (hlines : ∀ l ∈ lines, ∃ i ∈ issues, l.id = i.id ∧ l.title = i.title ∧
      l.description = i.description ∧ l.status = i.status ∧ l.priority = i.priority ∧
      l.updated_at = i.updated_at ∧ l.closed_at = i.closed_at)
    (st : ImportStats × List Issue) (hst : st.2 = issues) :
    (lines.foldl (importIssueLine pid pn) st).2 = issues := by
  induction lines generalizing st with
  | nil => exact hst
  | cons l rest ih =>
    rw [List.foldl_cons]
    obtain ⟨i, hi, hfields⟩ := hlines l (by simp)
    exact ih (fun l2 h2 => hlines l2 (by simp [h2])) _
      (importIssueLine_fixed pid pn issues hnd st hst l i hi hfields)

/-- Whatever the insert loop does, it only appends rows of the line's
issue. -/
theorem importDepInsert_extra (now : String) (issues : List Issue) (line_id : String)
    (deps : List Dep) (pairs : List (String × String)) :
    ∃ extra : List Dep, importDepInsert now issues line_id deps pairs = deps ++ extra ∧
      ∀ e ∈ extra, e.issue_id = line_id := by
  induction pairs generalizing deps with
  | nil => exact ⟨[], by simp [importDepInsert], by simp⟩
  | cons p rest ih =>
    obtain ⟨target, ty⟩ := p
    rw [importDepInsert]
    by_cases hc : (issues.any (fun i => i.id == line_id) &&
        issues.any (fun i => i.id == target)) = true
    · rw [if_pos hc]
      by_cases hd : (deps.any (fun e => e.issue_id == line_id && e.depends_on_id == target)) = true
      · rw [if_pos hd]
        exact ih deps
      · rw [Bool.not_eq_true] at hd
        rw [hd]
        rw [if_neg Bool.false_ne_true]
        obtain ⟨extra, hex, hall⟩ := ih (deps ++ [⟨line_id, target, ty, now⟩])
        refine ⟨⟨line_id, target, ty, now⟩ :: extra, ?_, ?_⟩
        · rw [hex, List.append_assoc]
          rfl
        · intro e he
          rcases List.mem_cons.mp he with rfl | he2
          · rfl
          · exact hall e he2
    · rw [if_neg hc]
      exact ⟨[], by simp, by simp⟩

/-- When the foreign keys resolve, the targets are distinct and no row of
the line's issue is present, the insert loop appends exactly the line's
edges. -/
theorem importDepInsert_full (now : String) (issues : List Issue) (line_id : String)
    (deps : List Dep) (pairs : List (String × String))
    (hid : issues.any (fun i => i.id == line_id) = true)
    (htg : ∀ p ∈ pairs, issues.any (fun i => i.id == p.1) = true)
    (hnd : (pairs.map Prod.fst).Nodup)
    (hclean : ∀ p ∈ pairs,
      deps.any (fun e => e.issue_id == line_id && e.depends_on_id == p.1) = false) :
    importDepInsert now issues line_id deps pairs =
      deps ++ pairs.map (fun p => ⟨line_id, p.1, p.2, now⟩) := by
  induction pairs generalizing deps with
  | nil => simp [importDepInsert]
  | cons p rest ih =>
    obtain ⟨target, ty⟩ := p
    rw [importDepInsert]
    rw [if_pos (by rw [hid, htg (target, ty) (by simp)]; rfl)]
    have hcl := hclean (target, ty) (by simp)
    rw [hcl, if_neg Bool.false_ne_true]
    rw [List.map_cons, List.nodup_cons] at hnd
    show importDepInsert now issues line_id
      (deps ++ [⟨line_id, target, ty, now⟩]) rest = _
    have hrest : ∀ q ∈ rest, ((deps ++ [(⟨line_id, target, ty, now⟩ : Dep)]).any
        (fun e => e.issue_id == line_id && e.depends_on_id == q.1)) = false := by
      intro q hq
      rw [List.any_append, hclean q (by simp [hq]), Bool.false_or]
      have hne : (target == q.1) = false := by
        rw [beq_eq_false_iff_ne]
        intro he
        exact hnd.1 (he ▸ List.mem_map.mpr ⟨q, hq, rfl⟩)
      simp [hne]
    refine (ih (deps ++ [(⟨line_id, target, ty, now⟩ : Dep)])
      (fun q hq => htg q (by simp [hq])) hnd.2 hrest).trans ?_
    rw [List.append_assoc]
    rfl

/-- The dependency phase for one line replaces exactly that issue's rows
with the line's edges (under resolving foreign keys and distinct
targets). -/
theorem importDepsLine_result (now : String) (issues : List Issue) (deps : List Dep)
    (l : ExportedIssue)
    (hid : issues.any (fun i => i.id == l.id) = true)
    (htg : ∀ p ∈ l.dependencies, issues.any (fun i => i.id == p.1) = true)
    (hnd : (l.dependencies.map Prod.fst).Nodup) :
    importDepsLine now issues deps l =
      deps.filter (fun d => !(d.issue_id == l.id)) ++
        l.dependencies.map (fun p => ⟨l.id, p.1, p.2, now⟩) := by
  rw [importDepsLine]
  apply importDepInsert_full now issues l.id _ _ hid htg hnd
  intro p _
  rw [Bool.eq_false_iff]
  intro hany
  obtain ⟨e, he, hep⟩ := List.any_eq_true.mp hany
  obtain ⟨_, hkeep⟩ := List.mem_filter.mp he
  rw [Bool.and_eq_true] at hep
  rw [hep.1] at hkeep
  cases hkeep

/-- `depsFor` distributes over append. -/
theorem depsFor_append (L M : List Dep) (x : String) :
    depsFor (L ++ M) x = depsFor L x ++ depsFor M x := by
  rw [depsFor, depsFor, depsFor, List.filter_append]

/-- Clearing another issue's rows does not change `depsFor`. -/
theorem depsFor_filter_ne (L : List Dep) (y x : String) (h : x ≠ y) :
    depsFor (L.filter (fun d => !(d.issue_id == y))) x = depsFor L x := by
  rw [depsFor, List.filter_filter, depsFor]
  apply List.filter_congr
  intro d _
  by_cases hd : (d.issue_id == x) = true
  · rw [hd, Bool.true_and, beq_iff_eq.mp hd]
    simp only [Bool.not_eq_eq_eq_not, Bool.not_true, beq_eq_false_iff_ne]
    exact fun he => h he
  · rw [Bool.not_eq_true] at hd
    rw [hd, Bool.false_and]

/-- Rows of another issue contribute nothing to `depsFor`. -/
theorem depsFor_eq_nil (extra : List Dep) (y x : String)
    (hall : ∀ e ∈ extra, e.issue_id = y) (h : x ≠ y) : depsFor extra x = [] := by
  rw [depsFor, List.filter_eq_nil_iff]
  intro e he
  rw [hall e he]
  simp only [beq_iff_eq]
  exact fun he2 => h he2.symm

/-- The freshly inserted rows of an issue are exactly its `depsFor`. -/
theorem depsFor_map_self (pairs : List (String × String)) (x now : String) :
    depsFor (pairs.map (fun p => ⟨x, p.1, p.2, now⟩)) x =
      pairs.map (fun p => ⟨x, p.1, p.2, now⟩) := by
  rw [depsFor, List.filter_eq_self]
  intro d hd
  obtain ⟨p, _, rfl⟩ := List.mem_map.mp hd
  simp

/-- The dependency phase leaves untouched issues' rows unchanged. -/
theorem importDeps_foldl_other (now : String) (issues : List Issue)
    (lines : List ExportedIssue) (deps0 : List Dep) (x : String)
    (hx : ∀ l ∈ lines, l.id ≠ x) :
    depsFor (lines.foldl (importDepsLine now issues) deps0) x = depsFor deps0 x := by
  induction lines generalizing deps0 with
  | nil => rfl
  | cons l rest ih =>
    rw [List.foldl_cons, ih _ (fun l2 h2 => hx l2 (by simp [h2]))]
    rw [importDepsLine]
    obtain ⟨extra, hex, hall⟩ := importDepInsert_extra now issues l.id
      (deps0.filter (fun d => !(d.issue_id == l.id))) l.dependencies
    rw [hex, depsFor_append,
      depsFor_eq_nil extra l.id x hall (fun he => hx l (by simp) he.symm),
      List.append_nil,
      depsFor_filter_ne deps0 l.id x (fun he => hx l (by simp) he.symm)]

/-- Clearing an issue's rows empties its `depsFor`. -/
theorem depsFor_filter_self (L : List Dep) (y : String) :
    depsFor (L.filter (fun d => !(d.issue_id == y))) y = [] := by
  rw [depsFor, List.filter_eq_nil_iff]
  intro e he
  have := (List.mem_filter.mp he).2
  rw [Bool.not_eq_eq_eq_not, Bool.not_true] at this
  rw [this]
  exact Bool.false_ne_true

/-- After the dependency phase, a processed line's issue carries exactly
the line's edges. -/
theorem importDeps_foldl_line (now : String) (issues : List Issue)
    (l1s l2s : List ExportedIssue) (l : ExportedIssue) (deps0 : List Dep)
    (hnd2 : ∀ l2 ∈ l2s, l2.id ≠ l.id)
    (hid : issues.any (fun i => i.id == l.id) = true)
    (htg : ∀ p ∈ l.dependencies, issues.any (fun i => i.id == p.1) = true)
    (hpnd : (l.dependencies.map Prod.fst).Nodup) :
    depsFor ((l1s ++ l :: l2s).foldl (importDepsLine now issues) deps0) l.id =
      l.dependencies.map (fun p => ⟨l.id, p.1, p.2, now⟩) := by
  rw [List.foldl_append, List.foldl_cons]
  rw [importDeps_foldl_other now issues l2s _ l.id hnd2]
  rw [importDepsLine_result now issues _ l hid htg hpnd]
  rw [depsFor_append, depsFor_map_self, depsFor_filter_self, List.nil_append]

/-- Counting a dependency triple only involves the rows of its issue. -/
theorem count_dtriple_depsFor (L : List Dep) (t : String × String × String) :
    (L.map dtriple).count t = ((depsFor L t.1).map dtriple).count t := by
  induction L with
  | nil => rfl
  | cons d rest ih =>
    by_cases hd : (d.issue_id == t.1) = true
    · rw [List.map_cons, depsFor, List.filter_cons, hd]
      show (dtriple d :: rest.map dtriple).count t =
        (dtriple d :: (depsFor rest t.1).map dtriple).count t
      rw [List.count_cons, List.count_cons, ih]
    · rw [Bool.not_eq_true] at hd
      rw [List.map_cons, depsFor, List.filter_cons, hd]
      show (dtriple d :: rest.map dtriple).count t = ((depsFor rest t.1).map dtriple).count t
      rw [List.count_cons, ih]
      have : (dtriple d == t) = false := by
        rw [beq_eq_false_iff_ne]
        intro he
        have : d.issue_id = t.1 := congrArg Prod.fst he
        rw [← this] at hd
        simp at hd
      rw [this]
      simp

/-- `commentsFor` distributes over append. -/
theorem commentsFor_append (L M : List CommentRow) (x : String) :
    commentsFor (L ++ M) x = commentsFor L x ++ commentsFor M x := by
  rw [commentsFor, commentsFor, commentsFor, List.filter_append]

/-- Clearing another issue's comments does not change `commentsFor`. -/
theorem commentsFor_filter_ne (L : List CommentRow) (y x : String) (h : x ≠ y) :
    commentsFor (L.filter (fun c => !(c.issue_id == y))) x = commentsFor L x := by
  rw [commentsFor, List.filter_filter, commentsFor]
  apply List.filter_congr
  intro c _
  by_cases hc : (c.issue_id == x) = true
  · rw [hc, Bool.true_and, beq_iff_eq.mp hc]
    simp only [Bool.not_eq_eq_eq_not, Bool.not_true, beq_eq_false_iff_ne]
    exact fun he => h he
  · rw [Bool.not_eq_true] at hc
    rw [hc, Bool.false_and]

/-- Comments of another issue contribute nothing to `commentsFor`. -/
theorem commentsFor_eq_nil (extra : List CommentRow) (y x : String)
    (hall : ∀ e ∈ extra, e.issue_id = y) (h : x ≠ y) : commentsFor extra x = [] := by
  rw [commentsFor, List.filter_eq_nil_iff]
  intro e he
  rw [hall e he]
  simp only [beq_iff_eq]
  exact fun he2 => h he2.symm

/-- Clearing an issue's comments empties its `commentsFor`. -/
theorem commentsFor_filter_self (L : List CommentRow) (y : String) :
    commentsFor (L.filter (fun c => !(c.issue_id == y))) y = [] := by
  rw [commentsFor, List.filter_eq_nil_iff]
  intro e he
  have := (List.mem_filter.mp he).2
  rw [Bool.not_eq_eq_eq_not, Bool.not_true] at this
  rw [this]
  exact Bool.false_ne_true

/-- The freshly inserted comments of an issue are exactly its
`commentsFor`. -/
theorem commentsFor_map_self (ts : List (String × String × String)) (x : String) :
    commentsFor (ts.map (fun t => ⟨x, t.1, t.2.1, t.2.2⟩)) x =
      ts.map (fun t => ⟨x, t.1, t.2.1, t.2.2⟩) := by
  rw [commentsFor, List.filter_eq_self]
  intro c hc
  obtain ⟨t, _, rfl⟩ := List.mem_map.mp hc
  simp

/-- The comment phase leaves untouched issues' comments unchanged. -/
theorem importComments_foldl_other (issues : List Issue)
    (lines : List ExportedIssue) (cs0 : List CommentRow) (x : String)
    (hx : ∀ l ∈ lines, l.id ≠ x) :
    commentsFor (lines.foldl (importCommentsLine issues) cs0) x = commentsFor cs0 x := by
  induction lines generalizing cs0 with
  | nil => rfl
  | cons l rest ih =>
    rw [List.foldl_cons, ih _ (fun l2 h2 => hx l2 (by simp [h2]))]
    rw [importCommentsLine]
    have hne : x ≠ l.id := fun he => hx l (by simp) he.symm
    by_cases hi : (issues.any (fun i => i.id == l.id)) = true
    · rw [if_pos hi, commentsFor_append,
        commentsFor_eq_nil (l.comments.map (fun t => ⟨l.id, t.1, t.2.1, t.2.2⟩)) l.id x
          (by
            intro e he
            obtain ⟨t, _, rfl⟩ := List.mem_map.mp he
            rfl) hne,
        List.append_nil, commentsFor_filter_ne cs0 l.id x hne]
    · rw [if_neg hi, commentsFor_filter_ne cs0 l.id x hne]

/-- After the comment phase, a processed line's issue carries exactly the
line's comments. -/
theorem importComments_foldl_line (issues : List Issue)
    (l1s l2s : List ExportedIssue) (l : ExportedIssue) (cs0 : List CommentRow)
    (hnd2 : ∀ l2 ∈ l2s, l2.id ≠ l.id)
    (hid : issues.any (fun i => i.id == l.id) = true) :
    commentsFor ((l1s ++ l :: l2s).foldl (importCommentsLine issues) cs0) l.id =
      l.comments.map (fun t => ⟨l.id, t.1, t.2.1, t.2.2⟩) := by
  rw [List.foldl_append, List.foldl_cons]
  rw [importComments_foldl_other issues l2s _ l.id hnd2]
  rw [importCommentsLine, if_pos hid, commentsFor_append, commentsFor_map_self,
    commentsFor_filter_self, List.nil_append]

/-- Counting a comment tuple only involves the rows of its issue. -/
theorem count_ctuple_commentsFor (L : List CommentRow) (t : String × String × String × String) :
    (L.map ctuple).count t = ((commentsFor L t.1).map ctuple).count t := by
  induction L with
  | nil => rfl
  | cons c rest ih =>
    by_cases hc : (c.issue_id == t.1) = true
    · rw [List.map_cons, commentsFor, List.filter_cons, hc]
      show (ctuple c :: rest.map ctuple).count t =
        (ctuple c :: (commentsFor rest t.1).map ctuple).count t
      rw [List.count_cons, List.count_cons, ih]
    · rw [Bool.not_eq_true] at hc
      rw [List.map_cons, commentsFor, List.filter_cons, hc]
      show (ctuple c :: rest.map ctuple).count t = ((commentsFor rest t.1).map ctuple).count t
      rw [List.count_cons, ih]
      have : (ctuple c == t) = false := by
        rw [beq_eq_false_iff_ne]
        intro he
        have : c.issue_id = t.1 := congrArg Prod.fst he
        rw [← this] at hc
        simp at hc
      rw [this]
      simp

/-- Every exported line is the line of a stored issue. -/
theorem mem_export (db : DB) (pid : String) (l : ExportedIssue)
    (hl : l ∈ export_to_jsonl db pid) : ∃ i ∈ db.issues, l = exportLine db i := by
  simp only [export_to_jsonl] at hl
  obtain ⟨i, hi, rfl⟩ := List.mem_map.mp hl
  refine ⟨i, ?_, rfl⟩
  have h1 := (List.mem_filter.mp hi).1
  have h2 := (List.perm_insertionSort leIssueId
    (db.issues.filter (fun j => j.project_id == pid))).mem_iff.mp h1
  exact (List.mem_filter.mp h2).1

/-- Exported line ids inherit the table's uniqueness. -/
theorem export_ids_nodup (db : DB) (pid : String)
    (hids : (db.issues.map (fun i => i.id)).Nodup) :
    ((export_to_jsonl db pid).map (fun l => l.id)).Nodup := by
  simp only [export_to_jsonl]
  rw [List.map_map]
  have hfun : ((fun l : ExportedIssue => l.id) ∘ exportLine db) = fun i : Issue => i.id := rfl
  rw [hfun]
  have h1 : ((db.issues.filter (fun i => i.project_id == pid)).map (fun i => i.id)).Nodup :=
    hids.sublist ((List.filter_sublist _).map _)
  have h2 : (((db.issues.filter (fun i => i.project_id == pid)).insertionSort
      leIssueId).map (fun i => i.id)).Nodup :=
    (((List.perm_insertionSort leIssueId _).map (fun i : Issue => i.id)).nodup_iff).mpr h1
  exact h2.sublist ((List.filter_sublist _).map _)

/-- With the pair primary key, one issue's dependency targets are
distinct. -/
theorem depsFor_targets_nodup (deps : List Dep) (x : String)
    (hpairs : (deps.map (fun d => (d.issue_id, d.depends_on_id))).Nodup) :
    ((depsFor deps x).map (fun d => d.depends_on_id)).Nodup := by
  have hsub : ((depsFor deps x).map (fun d => (d.issue_id, d.depends_on_id))).Nodup :=
    hpairs.sublist ((List.filter_sublist _).map _)
  apply List.Nodup.map_on ?inj hsub.of_map
  intro a ha b hb he
  apply List.inj_on_of_nodup_map hsub ha hb
  have hax : a.issue_id = x := beq_iff_eq.mp (List.mem_filter.mp ha).2
  have hbx : b.issue_id = x := beq_iff_eq.mp (List.mem_filter.mp hb).2
  rw [hax, hbx, he]

/-- `List.count` through the decidable-equality `countP`, for the
instance Lean derives from `DecidableEq`. -/
theorem count_eq_countP_decide {α : Type} [DecidableEq α] (L : List α) (a : α) :
    L.count a = List.countP (fun b => decide (b = a)) L := by
  rw [List.count_eq_countP]
  apply List.countP_congr
  intro b _
  by_cases hb : b = a
  · subst hb
    simp
  · simp [hb]

/-- `List.count` through the decidable-equality `countP`, for any lawful
`BEq` instance. -/
theorem count_lawful_countP_decide {α : Type} [DecidableEq α] [BEq α] [LawfulBEq α]
    (L : List α) (a : α) :
    L.count a = List.countP (fun b => decide (b = a)) L := by
  rw [List.count_eq_countP]
  apply List.countP_congr
  intro b _
  by_cases hb : b = a
  · subst hb
    simp
  · simp [hb]

/-- Equal counts give a permutation of dependency-triple lists. -/
theorem perm_triple_of_count {l₁ l₂ : List (String × String × String)}
    (h : ∀ t : String × String × String, l₁.count t = l₂.count t) : l₁.Perm l₂ := by
  rw [List.perm_iff_count]
  intro a
  have h1 := h a
  rw [count_lawful_countP_decide l₁ a, count_lawful_countP_decide l₂ a] at h1
  rw [count_eq_countP_decide l₁ a, count_eq_countP_decide l₂ a]
  exact h1

/-- Equal counts give a permutation of comment-tuple lists. -/
theorem perm_tuple_of_count {l₁ l₂ : List (String × String × String × String)}
    (h : ∀ t : String × String × String × String, l₁.count t = l₂.count t) : l₁.Perm l₂ := by
  rw [List.perm_iff_count]
  intro a
  have h1 := h a
  rw [count_lawful_countP_decide l₁ a, count_lawful_countP_decide l₂ a] at h1
  rw [count_eq_countP_decide l₁ a, count_eq_countP_decide l₂ a]
  exact h1

/-- C3 — corrected, counterexample part.  The round trip does not restore
every dependency-edge field: the log line carries no edge timestamp, so
the import phase re-inserts each edge with `created_at` set to the import
time.  On the fixture store every record passes the validator, yet after
the round trip the dependencies table differs from the original (the one
edge's `created_at` became the import time). -/
theorem c3_counterexample :
    (∀ i ∈ c3db.issues, i.project_id = "demo" →
      validate_issue_belongs_to_project i.id (exportProjectName c3db "demo") = true) ∧
    (import_from_jsonl "t9" c3db (export_to_jsonl c3db "demo") "demo").2.deps ≠
      c3db.deps := by
  refine ⟨by decide, by decide⟩

/-- C3 — corrected, amended part.  For a project whose stored records all
pass the contamination validator for the project's name, exporting with
`export_to_jsonl` and importing the lines back with `import_from_jsonl`
under the same handle
restores the issues table exactly, every dependency edge as the
(issue, target, type) triple the log format records (the rebuilt rows'
`created_at` is the import time, a column the log does not carry), every
comment with all its fields, and leaves the projects and metadata tables
untouched.  The table invariants assumed are the primary key on issue
ids, the primary key on dependency pairs, and the foreign key on
dependency targets. -/
theorem c3_export_import_round_trip (db : DB) (pid now : String)
    (hids : (db.issues.map (fun i => i.id)).Nodup)
    (hpairs : (db.deps.map (fun d => (d.issue_id, d.depends_on_id))).Nodup)
    (hfk2 : ∀ d ∈ db.deps, ∃ i ∈ db.issues, i.id = d.depends_on_id)
    (hval : ∀ i ∈ db.issues, i.project_id = pid →
      validate_issue_belongs_to_project i.id (exportProjectName db pid) = true) :
    (import_from_jsonl now db (export_to_jsonl db pid) pid).2.issues = db.issues ∧
    ((import_from_jsonl now db (export_to_jsonl db pid) pid).2.deps.map dtriple).Perm
      (db.deps.map dtriple) ∧
    ((import_from_jsonl now db (export_to_jsonl db pid) pid).2.comments.map ctuple).Perm
      (db.comments.map ctuple) ∧
    (import_from_jsonl now db (export_to_jsonl db pid) pid).2.projects = db.projects ∧
    (import_from_jsonl now db (export_to_jsonl db pid) pid).2.metadata = db.metadata := by
  have hres : ((export_to_jsonl db pid).foldl
      (importIssueLine pid (extract_project_name_from_id pid))
      ((⟨0, 0, 0, 0⟩ : ImportStats), db.issues)).2 = db.issues := by
    refine importIssuePhase_fixed pid (extract_project_name_from_id pid) db.issues hids
      (export_to_jsonl db pid) ?_ ((⟨0, 0, 0, 0⟩ : ImportStats), db.issues) rfl
    intro l hl
    obtain ⟨i, hi, hli⟩ := mem_export db pid l hl
    refine ⟨i, hi, ?_, ?_, ?_, ?_, ?_, ?_, ?_⟩ <;> (rw [hli]; rfl)
  refine ⟨hres, ?_, ?_, rfl, rfl⟩
  · have hdeps : (import_from_jsonl now db (export_to_jsonl db pid) pid).2.deps =
        (export_to_jsonl db pid).foldl (importDepsLine now db.issues) db.deps := by
      show (export_to_jsonl db pid).foldl
        (importDepsLine now (((export_to_jsonl db pid).foldl
          (importIssueLine pid (extract_project_name_from_id pid))
          ((⟨0, 0, 0, 0⟩ : ImportStats), db.issues)).2)) db.deps =
        (export_to_jsonl db pid).foldl (importDepsLine now db.issues) db.deps
      rw [hres]
    rw [hdeps]
    apply perm_triple_of_count
    intro t
    rw [count_dtriple_depsFor
        ((export_to_jsonl db pid).foldl (importDepsLine now db.issues) db.deps) t,
      count_dtriple_depsFor db.deps t]
    by_cases hex : ∃ l ∈ export_to_jsonl db pid, l.id = t.1
    · obtain ⟨l, hlmem, hlid⟩ := hex
      obtain ⟨i, himem, hli⟩ := mem_export db pid l hlmem
      obtain ⟨l1s, l2s, hsplit⟩ := List.append_of_mem hlmem
      have hnodup := export_ids_nodup db pid hids
      rw [hsplit, List.map_append, List.map_cons] at hnodup
      have hnd2 : ∀ l2 ∈ l2s, l2.id ≠ l.id := by
        intro l2 h2 he
        have h1 : l.id ∉ l2s.map (fun l3 : ExportedIssue => l3.id) :=
          (List.nodup_cons.mp hnodup.of_append_right).1
        have h3 : l2.id ∈ l2s.map (fun l3 : ExportedIssue => l3.id) :=
          List.mem_map_of_mem _ h2
        rw [he] at h3
        exact h1 h3
      have hlid2 : l.id = i.id := by
        rw [hli]
        rfl
      have hid : db.issues.any (fun j => j.id == l.id) = true :=
        List.any_eq_true.mpr ⟨i, himem, by simp [hlid2]⟩
      have hldeps : l.dependencies =
          ((depsFor db.deps i.id).insertionSort leDepTarget).map
            (fun d => (d.depends_on_id, d.type)) := by
        rw [hli]
        rfl
      have htg : ∀ p ∈ l.dependencies, db.issues.any (fun j => j.id == p.1) = true := by
        rw [hldeps]
        intro p hp
        obtain ⟨d, hd, rfl⟩ := List.mem_map.mp hp
        have hd2 : d ∈ depsFor db.deps i.id :=
          (List.perm_insertionSort leDepTarget _).mem_iff.mp hd
        rw [depsFor] at hd2
        obtain ⟨j, hj, hje⟩ := hfk2 d (List.mem_filter.mp hd2).1
        exact List.any_eq_true.mpr ⟨j, hj, by simp [hje]⟩
      have hpnd : (l.dependencies.map Prod.fst).Nodup := by
        rw [hldeps, List.map_map]
        have hfun : (Prod.fst ∘ fun d : Dep => (d.depends_on_id, d.type)) =
            fun d : Dep => d.depends_on_id := rfl
        rw [hfun]
        exact (((List.perm_insertionSort leDepTarget (depsFor db.deps i.id)).map
          (fun d : Dep => d.depends_on_id)).nodup_iff).mpr
          (depsFor_targets_nodup db.deps i.id hpairs)
      rw [← hlid, hsplit,
        importDeps_foldl_line now db.issues l1s l2s l db.deps hnd2 hid htg hpnd,
        hldeps, hlid2, List.map_map, List.map_map]
      have hcomp : ((dtriple ∘ (fun p : String × String =>
          (⟨i.id, p.1, p.2, now⟩ : Dep))) ∘ (fun d : Dep => (d.depends_on_id, d.type))) =
          fun d : Dep => ((i.id : String), d.depends_on_id, d.type) := rfl
      rw [hcomp]
      have hcongr : (depsFor db.deps i.id).map dtriple =
          (depsFor db.deps i.id).map
            (fun d => ((i.id : String), d.depends_on_id, d.type)) := by
        apply List.map_congr_left
        intro d hd
        rw [depsFor] at hd
        have hdi : d.issue_id = i.id := beq_iff_eq.mp (List.mem_filter.mp hd).2
        rw [dtriple, hdi]
      rw [hcongr, count_lawful_countP_decide _ t, count_lawful_countP_decide _ t]
      exact ((List.perm_insertionSort leDepTarget (depsFor db.deps i.id)).map
        (fun d : Dep => ((i.id : String), d.depends_on_id, d.type))).countP_eq _
    · push_neg at hex
      rw [importDeps_foldl_other now db.issues (export_to_jsonl db pid) db.deps t.1 hex]
  · have hcs : (import_from_jsonl now db (export_to_jsonl db pid) pid).2.comments =
        (export_to_jsonl db pid).foldl (importCommentsLine db.issues) db.comments := by
      show (export_to_jsonl db pid).foldl
        (importCommentsLine (((export_to_jsonl db pid).foldl
          (importIssueLine pid (extract_project_name_from_id pid))
          ((⟨0, 0, 0, 0⟩ : ImportStats), db.issues)).2)) db.comments =
        (export_to_jsonl db pid).foldl (importCommentsLine db.issues) db.comments
      rw [hres]
    rw [hcs]
    apply perm_tuple_of_count
    intro t
    rw [count_ctuple_commentsFor
        ((export_to_jsonl db pid).foldl (importCommentsLine db.issues) db.comments) t,
      count_ctuple_commentsFor db.comments t]
    by_cases hex : ∃ l ∈ export_to_jsonl db pid, l.id = t.1
    · obtain ⟨l, hlmem, hlid⟩ := hex
      obtain ⟨i, himem, hli⟩ := mem_export db pid l hlmem
      obtain ⟨l1s, l2s, hsplit⟩ := List.append_of_mem hlmem
      have hnodup := export_ids_nodup db pid hids
      rw [hsplit, List.map_append, List.map_cons] at hnodup
      have hnd2 : ∀ l2 ∈ l2s, l2.id ≠ l.id := by
        intro l2 h2 he
        have h1 : l.id ∉ l2s.map (fun l3 : ExportedIssue => l3.id) :=
          (List.nodup_cons.mp hnodup.of_append_right).1
        have h3 : l2.id ∈ l2s.map (fun l3 : ExportedIssue => l3.id) :=
          List.mem_map_of_mem _ h2
        rw [he] at h3
        exact h1 h3
      have hlid2 : l.id = i.id := by
        rw [hli]
        rfl
      have hid : db.issues.any (fun j => j.id == l.id) = true :=
        List.any_eq_true.mpr ⟨i, himem, by simp [hlid2]⟩
      have hlcs : l.comments =
          ((commentsFor db.comments i.id).insertionSort leCommentTime).map
            (fun c => (c.content, c.source, c.created_at)) := by
        rw [hli]
        rfl
      rw [← hlid, hsplit,
        importComments_foldl_line db.issues l1s l2s l db.comments hnd2 hid,
        hlcs, hlid2, List.map_map, List.map_map]
      have hcomp : ((ctuple ∘ (fun t2 : String × String × String =>
          (⟨i.id, t2.1, t2.2.1, t2.2.2⟩ : CommentRow))) ∘
          (fun c : CommentRow => (c.content, c.source, c.created_at))) =
          fun c : CommentRow => ((i.id : String), c.content, c.source, c.created_at) := rfl
      rw [hcomp]
      have hcongr : (commentsFor db.comments i.id).map ctuple =
          (commentsFor db.comments i.id).map
            (fun c => ((i.id : String), c.content, c.source, c.created_at)) := by
        apply List.map_congr_left
        intro c hc
        rw [commentsFor] at hc
        have hci : c.issue_id = i.id := beq_iff_eq.mp (List.mem_filter.mp hc).2
        rw [ctuple, hci]
      rw [hcongr, count_lawful_countP_decide _ t, count_lawful_countP_decide _ t]
      exact ((List.perm_insertionSort leCommentTime (commentsFor db.comments i.id)).map
        (fun c : CommentRow => ((i.id : String), c.content, c.source, c.created_at))).countP_eq _
    · push_neg at hex
      rw [importComments_foldl_other db.issues (export_to_jsonl db pid) db.comments t.1 hex]

/-- C3, witnessed on the fixture store: the round trip restores its
issues, edge triples, comments, projects and metadata. -/
theorem c3_witness :
    (import_from_jsonl "t9" c3db (export_to_jsonl c3db "demo") "demo").2.issues =
      c3db.issues ∧
    ((import_from_jsonl "t9" c3db (export_to_jsonl c3db "demo") "demo").2.deps.map
      dtriple).Perm (c3db.deps.map dtriple) ∧
    ((import_from_jsonl "t9" c3db (export_to_jsonl c3db "demo") "demo").2.comments.map
      ctuple).Perm (c3db.comments.map ctuple) ∧
    (import_from_jsonl "t9" c3db (export_to_jsonl c3db "demo") "demo").2.projects =
      c3db.projects ∧
    (import_from_jsonl "t9" c3db (export_to_jsonl c3db "demo") "demo").2.metadata =
      c3db.metadata :=
  c3_export_import_round_trip c3db "demo" "t9" (by decide) (by decide) (by decide)
    (by decide)

end Trace
